import Mathlib

/-!
Shallow embedding of the repository's markdown diagnostics pipeline
(`extensions/markdown-language-features/src/languageFeatures/diagnostics.ts`),
the merge editor view (`mergeEditor.ts`) and the optimizer's loader bundle
(`build/lib/optimize.js`), together with theorems settling the frozen claims.

Resources (`vscode.Uri`) are modelled as strings; `ResourceMap` is an
association list keyed by the resource.  Host services (link computation,
table-of-contents lookup, path existence, glob matching) are parameters of
the model, so every theorem quantifies over their behaviour.
-/

namespace Diag

/-- Resource identifiers (`vscode.Uri`), compared by value. -/
abbrev Uri := String

/-- Read a `ResourceMap` entry (`ResourceMap.get`). -/
def mapGet (r : Uri) : List (Uri × α) → Option α
  | [] => none
  | kv :: tl => if kv.1 == r then some kv.2 else mapGet r tl

/-- Write a `ResourceMap` entry (`ResourceMap.set`): replace in place, else append. -/
def mapSet (r : Uri) (v : α) : List (Uri × α) → List (Uri × α)
  | [] => [(r, v)]
  | kv :: tl => if kv.1 == r then (kv.1, v) :: tl else kv :: mapSet r v tl

/-- Remove a `ResourceMap` entry (`ResourceMap.delete`). -/
def mapDelete (r : Uri) (m : List (Uri × α)) : List (Uri × α) :=
  m.filter (fun kv => !(kv.1 == r))

/-- `DiagnosticLevel` from diagnostics.ts. -/
inductive DiagnosticLevel
  | ignore
  | warning
  | error
deriving DecidableEq, Repr

/-- The subset of `vscode.DiagnosticSeverity` used by diagnostics.ts. -/
inductive DiagnosticSeverity
  | Error
  | Warning
deriving DecidableEq, Repr

/-- `toSeverity` from diagnostics.ts. -/
def toSeverity : Option DiagnosticLevel → Option DiagnosticSeverity
  | some .error => some .Error
  | some .warning => some .Warning
  | some .ignore => none
  | none => none

/-- `DiagnosticOptions` from diagnostics.ts (`undefined` is `none`). -/
structure DiagnosticOptions where
  enabled : Bool
  validateReferences : Option DiagnosticLevel
  validateFragmentLinks : Option DiagnosticLevel
  validateFileLinks : Option DiagnosticLevel
  validateMarkdownFileLinkFragments : Option DiagnosticLevel
  ignoreLinks : List String
deriving DecidableEq, Repr

/-- A text position (`vscode.Position`); characters are integers so that
`translate(0, -1)` is total. -/
structure Pos where
  line : Int
  character : Int
deriving DecidableEq, Repr

/-- A text range (`vscode.Range`). -/
structure Range where
  start : Pos
  stop : Pos
deriving DecidableEq, Repr

/-- `MdLinkSource` fields used by the diagnostics (documentLinkProvider.ts). -/
structure MdLinkSource where
  text : String
  pathText : String
  hrefRange : Range
  fragmentRange : Option Range
deriving DecidableEq, Repr

/-- Link targets: `InternalHref`, reference href, or external href. -/
inductive Href
  | internal (path : Uri) (fragment : String)
  | reference (ref : String)
  | external
deriving DecidableEq, Repr

/-- `MdLink`: a link occurrence in a markdown document. -/
structure MdLink where
  source : MdLinkSource
  href : Href
deriving DecidableEq, Repr

/-- A markdown document (`SkinnyTextDocument`), identified by its uri. -/
structure Doc where
  uri : Uri
deriving DecidableEq, Repr

/-- Diagnostic messages, one constructor per `localize` call site in
diagnostics.ts. -/
inductive DiagMessage
  | noHeaderFound (fragment : String)
  | noLinkDefinitionFound (ref : String)
  | fileDoesNotExist (path : Uri)
  | headerDoesNotExistInFile (fragment : String)
deriving DecidableEq, Repr

/-- A produced diagnostic.  `link` is the extra field of
`LinkDoesNotExistDiagnostic` (`none` for a plain `vscode.Diagnostic`). -/
structure Diagnostic where
  range : Range
  message : DiagMessage
  severity : DiagnosticSeverity
  link : Option String
deriving DecidableEq, Repr

/-- Host and dependency services the diagnostic computer delegates to:
`MdLinkComputer.getAllLinks`, `TableOfContents.create(...).lookup`,
`tryFindMdDocumentForLink`, `MdWorkspaceContents.pathExists`,
`LinkDefinitionSet(links).lookup` and `picomatch.isMatch`.  All are
parameters: the theorems hold for every behaviour of these services. -/
structure Env where
  getAllLinks : Doc → List MdLink
  tocLookup : Doc → String → Bool
  findMdDocForPath : Uri → Option Doc
  pathExists : Uri → Bool
  defLookup : List MdLink → String → Bool
  isMatch : String → String → Bool

/-- `DiagnosticComputer.isIgnoredLink`. -/
def isIgnoredLink (env : Env) (options : DiagnosticOptions) (link : String) : Bool :=
  options.ignoreLinks.any (fun glob => env.isMatch link glob)

/-- `DiagnosticComputer.validateFragmentLinks`: own-document fragment links. -/
def validateFragmentLinks (env : Env) (doc : Doc) (options : DiagnosticOptions)
    (links : List MdLink) (token : Bool) : List Diagnostic :=
  match toSeverity options.validateFragmentLinks with
  | none => []
  | some severity =>
    if token then [] else
    links.filterMap (fun link =>
      match link.href with
      | .internal path fragment =>
        if link.source.text.startsWith "#"
            && path == doc.uri
            && fragment != ""
            && !(env.tocLookup doc fragment) then
          if !(isIgnoredLink env options link.source.text) then
            some { range := link.source.hrefRange,
                   message := .noHeaderFound fragment,
                   severity := severity,
                   link := some link.source.text }
          else none
        else none
      | _ => none)

/-- `DiagnosticComputer.validateReferenceLinks`. -/
def validateReferenceLinks (env : Env) (options : DiagnosticOptions)
    (links : List MdLink) : List Diagnostic :=
  match toSeverity options.validateReferences with
  | none => []
  | some severity =>
    links.filterMap (fun link =>
      match link.href with
      | .reference ref =>
        if !(env.defLookup links ref) then
          some { range := link.source.hrefRange,
                 message := .noLinkDefinitionFound ref,
                 severity := severity,
                 link := none }
        else none
      | _ => none)

/-- An entry of the `FileLinkMap`: link source plus target fragment. -/
structure FileLinkEntry where
  source : MdLinkSource
  fragment : String
deriving DecidableEq, Repr

/-- Add one link to the `FileLinkMap` under construction (push onto an
existing file entry, else append a new entry). -/
def fileLinkMapAdd (m : List (Uri × List FileLinkEntry)) (path : Uri)
    (e : FileLinkEntry) : List (Uri × List FileLinkEntry) :=
  if m.any (fun kv => kv.1 == path) then
    m.map (fun kv => if kv.1 == path then (kv.1, kv.2 ++ [e]) else kv)
  else
    m ++ [(path, [e])]

/-- One iteration of the `FileLinkMap` constructor loop: internal links are
grouped under their target path, other links are skipped. -/
def fileLinkMapStep (m : List (Uri × List FileLinkEntry)) (link : MdLink) :
    List (Uri × List FileLinkEntry) :=
  match link.href with
  | .internal path fragment =>
    fileLinkMapAdd m path { source := link.source, fragment := fragment }
  | _ => m

/-- The `FileLinkMap` constructor: group internal links by target path,
preserving first-seen path order and per-path link order. -/
def fileLinkMapBuild (links : List MdLink) : List (Uri × List FileLinkEntry) :=
  links.foldl fileLinkMapStep []

/-- The entries recorded under a path key of a file-link map. -/
def entriesOf (p : Uri) (m : List (Uri × List FileLinkEntry)) : List FileLinkEntry :=
  ((m.filter (fun kv => kv.1 == p)).map (fun kv => kv.2)).flatten

/-- The entries a link list contributes for target path `p` (one per
internal link to `p`, in link order). -/
def fileLinkTarget (p : Uri) (ls : List MdLink) : List FileLinkEntry :=
  ls.filterMap (fun l =>
    match l.href with
    | .internal q fragment =>
      if q == p then some { source := l.source, fragment := fragment } else none
    | _ => none)

/-- Range used for a broken fragment link to another file:
`fragmentRange?.with(start translated by (0, -1)) ?? hrefRange`. -/
def fragRangeAdjusted (s : MdLinkSource) : Range :=
  match s.fragmentRange with
  | some r => { r with start := { r.start with character := r.start.character - 1 } }
  | none => s.hrefRange

/-- The markdown-file fragment severity used by `validateFileLinks`:
`validateMarkdownFileLinkFragments`, falling back to
`validateFragmentLinks` when undefined. -/
def mdFragmentErrorSeverity (options : DiagnosticOptions) : Option DiagnosticSeverity :=
  toSeverity
    (match options.validateMarkdownFileLinkFragments with
     | none => options.validateFragmentLinks
     | some v => some v)

/-- The diagnostics one `FileLinkMap` group produces (the body of the
queued task in `validateFileLinks`). -/
def fileLinkGroupDiagnostics (env : Env) (options : DiagnosticOptions)
    (pathErrorSeverity : DiagnosticSeverity)
    (fragmentErrorSeverity : Option DiagnosticSeverity) (token : Bool)
    (group : Uri × List FileLinkEntry) : List Diagnostic :=
  if token then [] else
  match env.findMdDocForPath group.1 with
  | none =>
    if !(env.pathExists group.1) then
      group.2.filterMap (fun link =>
        if !(isIgnoredLink env options link.source.pathText) then
          some { range := link.source.hrefRange,
                 message := .fileDoesNotExist group.1,
                 severity := pathErrorSeverity,
                 link := some link.source.pathText }
        else none)
    else []
  | some hrefDoc =>
    match fragmentErrorSeverity with
    | none => []
    | some fsev =>
      let fragmentLinks := group.2.filter (fun x => x.fragment != "")
      if fragmentLinks.length != 0 then
        fragmentLinks.filterMap (fun link =>
          if !(env.tocLookup hrefDoc link.fragment)
              && !(isIgnoredLink env options link.source.pathText)
              && !(isIgnoredLink env options link.source.text) then
            some { range := fragRangeAdjusted link.source,
                   message := .headerDoesNotExistInFile link.fragment,
                   severity := fsev,
                   link := some link.source.text }
          else none)
      else []

/-- `DiagnosticComputer.validateFileLinks`. -/
def validateFileLinks (env : Env) (options : DiagnosticOptions)
    (links : List MdLink) (token : Bool) : List Diagnostic :=
  match toSeverity options.validateFileLinks with
  | none => []
  | some pathErrorSeverity =>
    let fragmentErrorSeverity := mdFragmentErrorSeverity options
    let linkSet := fileLinkMapBuild
      (links.filter (fun link => !(link.source.text.startsWith "#")))
    if linkSet.length == 0 then [] else
    (linkSet.map (fileLinkGroupDiagnostics env options pathErrorSeverity
      fragmentErrorSeverity token)).flatten

/-- `DiagnosticComputer.getDiagnostics`: returns the computed links together
with the diagnostics.  `token` is whether cancellation was requested. -/
def getDiagnostics (env : Env) (doc : Doc) (options : DiagnosticOptions)
    (token : Bool) : List MdLink × List Diagnostic :=
  let links := env.getAllLinks doc
  if token || !options.enabled then
    (links, [])
  else
    (links,
      validateFileLinks env options links token
        ++ validateReferenceLinks env options links
        ++ validateFragmentLinks env doc options links token)

/-- State of `InflightDiagnosticRequests`: the in-flight map assigns each
resource the id of its cancellation token source; `cancelled` records the
token ids whose `cancel()` was called; `nextId` supplies fresh token ids. -/
structure InflightState where
  inFlightRequests : List (Uri × Nat)
  cancelled : List Nat
  nextId : Nat
deriving DecidableEq, Repr

/-- `InflightDiagnosticRequests.cancel`: signal and drop any existing
in-flight request for the resource. -/
def inflightCancel (r : Uri) (st : InflightState) : InflightState :=
  match mapGet r st.inFlightRequests with
  | some id =>
    { st with cancelled := id :: st.cancelled,
              inFlightRequests := mapDelete r st.inFlightRequests }
  | none => st

/-- First half of `InflightDiagnosticRequests.trigger`: cancel the existing
request, then create a fresh token source and record the new entry.  Returns
the new state and the new entry's token id. -/
def inflightTriggerStart (r : Uri) (st : InflightState) : InflightState × Nat :=
  let st1 := inflightCancel r st
  let cts := st1.nextId
  ({ st1 with nextId := st1.nextId + 1,
              inFlightRequests := mapSet r cts st1.inFlightRequests }, cts)

/-- Second half of `InflightDiagnosticRequests.trigger` (the `finally`
block): when the computation settles, remove the entry if it is still the
recorded one. -/
def inflightTriggerSettle (r : Uri) (entry : Nat) (st : InflightState) : InflightState :=
  if mapGet r st.inFlightRequests == some entry then
    { st with inFlightRequests := mapDelete r st.inFlightRequests }
  else st

/-- Default debounce delay of the `DiagnosticManager` constructor. -/
def defaultDiagnosticDelay : Nat := 300

/-- A `vscode.Uri` object: `id` is the object identity (the reference), and
`value` the resource it denotes.  Two instances with distinct `id` are
different objects even when their `value` is equal. -/
structure UriInstance where
  id : Nat
  value : Uri
deriving DecidableEq, Repr

/-- The `DiagnosticManager` state relevant to debouncing: the pending set
(a `Set<vscode.Uri>` of Uri objects, deduplicated by object identity,
insertion ordered), whether a delayed run is scheduled through the
`Delayer`, and the delayer's delay. -/
structure ManagerState where
  pendingDiagnostics : List UriInstance
  delayerScheduled : Bool
  delay : Nat
deriving DecidableEq, Repr

/-- A fresh `DiagnosticManager` uses the default delay. -/
def initManagerState : ManagerState :=
  { pendingDiagnostics := [], delayerScheduled := false, delay := defaultDiagnosticDelay }

/-- `ResourceMap`-style set insertion by resource value: append unless an
equal value is already present. -/
def setAdd (u : Uri) (s : List Uri) : List Uri :=
  if s.any (fun v => v == u) then s else s ++ [u]

/-- `Set<vscode.Uri>.add`: append unless the same object (same identity) is
already present; an equal-valued but distinct instance is kept separately. -/
def setAddInstance (u : UriInstance) (s : List UriInstance) : List UriInstance :=
  if s.any (fun v => v.id == u.id) then s else s ++ [u]

/-- `DiagnosticManager.triggerDiagnostics` (debouncing part): add the uri
object to the pending set and schedule `recomputePendingDiagnostics` via
the delayer. -/
def triggerDiagnostics (st : ManagerState) (uri : UriInstance) : ManagerState :=
  { st with pendingDiagnostics := setAddInstance uri st.pendingDiagnostics,
            delayerScheduled := true }

/-- `DiagnosticManager.recomputePendingDiagnostics`: snapshot the pending
set, clear it, and recompute once per snapshot element.  Returns the new
state and the snapshot actually processed. -/
def recomputePendingDiagnostics (st : ManagerState) : ManagerState × List UriInstance :=
  let pending := st.pendingDiagnostics
  ({ st with pendingDiagnostics := [], delayerScheduled := false }, pending)

/-- A sequence of `triggerDiagnostics` calls. -/
def triggerMany (st : ManagerState) (uris : List UriInstance) : ManagerState :=
  uris.foldl triggerDiagnostics st

/-- State of `LinkWatcher`: watchers map each watched path to the documents
referencing it; `reported` is the history ghost recording, per document, the
internal link paths last passed to `updateLinksForDocument`. -/
structure LinkWatcherState where
  watchers : List (Uri × List Uri)
  reported : List (Uri × List Uri)

/-- The empty `LinkWatcher`. -/
def initLinkWatcherState : LinkWatcherState :=
  { watchers := [], reported := [] }

/-- Paths of the internal links of a document
(`new Set(links.filter(internal).map(path))`, first-occurrence order). -/
def internalPaths (links : List MdLink) : List Uri :=
  (links.filterMap (fun link =>
    match link.href with
    | .internal path _ => some path
    | _ => none)).eraseDups

/-- Delete the document from every watcher entry's document set. -/
def removeDocFromAll (doc : Uri) (ws : List (Uri × List Uri)) : List (Uri × List Uri) :=
  ws.map (fun kv => (kv.1, kv.2.filter (fun d => !(d == doc))))

/-- Record that `doc` links to `path`: extend the existing watcher entry,
else start watching the path with a new entry. -/
def addDocForPath (doc : Uri) (ws : List (Uri × List Uri)) (path : Uri) :
    List (Uri × List Uri) :=
  if ws.any (fun kv => kv.1 == path) then
    ws.map (fun kv => if kv.1 == path then (kv.1, setAdd doc kv.2) else kv)
  else
    ws ++ [(path, [doc])]

/-- Dispose and drop watcher entries no longer referenced by any document. -/
def pruneEmptyWatchers (ws : List (Uri × List Uri)) : List (Uri × List Uri) :=
  ws.filter (fun kv => !(kv.2.length == 0))

/-- `LinkWatcher.updateLinksForDocument`. -/
def updateLinksForDocument (st : LinkWatcherState) (doc : Uri)
    (links : List MdLink) : LinkWatcherState :=
  let linkedToResource := internalPaths links
  { watchers := pruneEmptyWatchers
      (linkedToResource.foldl (addDocForPath doc) (removeDocFromAll doc st.watchers)),
    reported := mapSet doc linkedToResource st.reported }

/-- `LinkWatcher.deleteDocument`. -/
def deleteDocument (st : LinkWatcherState) (doc : Uri) : LinkWatcherState :=
  updateLinksForDocument st doc []

/-- `LinkWatcher.onLinkedResourceChanged`: when the changed resource is a
watched path, fire `onDidChangeLinkedToFile` with the referencing documents
(`some docs`); otherwise no event fires (`none`). -/
def onLinkedResourceChanged (st : LinkWatcherState) (resource : Uri) :
    Option (List Uri) :=
  mapGet resource st.watchers

/-- An open text document of the editor (`vscode.TextDocument`). -/
structure TextDoc where
  uri : Uri
  isMarkdown : Bool
deriving DecidableEq, Repr

/-- Modelled from the spec: `isMarkdownFile` lives in `util/file.ts`, which
is not part of the excerpt.  The spec only needs to distinguish markdown
documents, modelled by a boolean field of the document. -/
def isMarkdownFile (d : TextDoc) : Bool :=
  d.isMarkdown

/-- The `DiagnosticManager` handler of `onDidChangeLinkedToFile`: for each
changed document uri, re-trigger diagnostics when it is an open markdown
text document.  Returns the uris re-triggered, in order. -/
def handleLinkedFileChanged (openDocs : List TextDoc) (changed : List Uri) :
    List Uri :=
  changed.filterMap (fun resource =>
    match openDocs.find? (fun d => d.uri == resource) with
    | some doc => if isMarkdownFile doc then some doc.uri else none
    | none => none)

/-- Composition for a file create/delete event at `resource`: the watcher
fires (or not), and the manager re-triggers for fired open markdown docs. -/
def linkedResourceChangedTriggers (st : LinkWatcherState)
    (openDocs : List TextDoc) (resource : Uri) : List Uri :=
  match onLinkedResourceChanged st resource with
  | some docs => handleLinkedFileChanged openDocs docs
  | none => []

/-- A tab of a tab group; `inputTextUri` is `some uri` exactly when the tab
input is a `vscode.TabInputText` for that uri. -/
structure Tab where
  inputTextUri : Option Uri
deriving DecidableEq, Repr

/-- A tab group (`vscode.window.tabGroups.all` element). -/
structure TabGroup where
  tabs : List Tab
deriving DecidableEq, Repr

/-- `DiagnosticCollectionReporter.getAllTabResources`. -/
def getAllTabResources (groups : List TabGroup) : List Uri :=
  (groups.map (fun g => g.tabs.filterMap (fun t => t.inputTextUri))).flatten

/-- `DiagnosticCollectionReporter.set`: publish the computed diagnostics when
the uri is open as a text tab, else publish the empty list.  The collection
is a `ResourceMap` of published diagnostic lists. -/
def reporterSet (groups : List TabGroup) (collection : List (Uri × List Diagnostic))
    (uri : Uri) (diagnostics : List Diagnostic) : List (Uri × List Diagnostic) :=
  mapSet uri
    (if (getAllTabResources groups).any (fun v => v == uri) then diagnostics else [])
    collection

/-- All documents referencing path `p` according to the watcher entries. -/
def docsOf (p : Uri) (ws : List (Uri × List Uri)) : List Uri :=
  ((ws.filter (fun kv => kv.1 == p)).map (fun kv => kv.2)).flatten

/-- The internal link paths last reported for a document (empty if never
reported). -/
def reportedPaths (st : LinkWatcherState) (d : Uri) : List Uri :=
  (mapGet d st.reported).getD []

/-- The `LinkWatcher` invariant: a document is recorded under a watched path
exactly when that path was among the document's last reported links. -/
def WatcherInv (st : LinkWatcherState) : Prop :=
  ∀ p d, d ∈ docsOf p st.watchers ↔ p ∈ reportedPaths st d

/-- Whether some uri is open as a markdown text document (the condition the
manager's `onDidChangeLinkedToFile` handler applies per changed uri). -/
def openMarkdownDoc (openDocs : List TextDoc) (u : Uri) : Bool :=
  match openDocs.find? (fun d => d.uri == u) with
  | some d => isMarkdownFile d
  | none => false

/-- Concrete range used by witness statements. -/
def sampleRange : Range :=
  { start := { line := 0, character := 0 }, stop := { line := 0, character := 4 } }

/-- Concrete host environment used by witness statements. -/
def sampleEnv : Env :=
  { getAllLinks := fun _ => [],
    tocLookup := fun _ _ => false,
    findMdDocForPath := fun _ => none,
    pathExists := fun _ => false,
    defLookup := fun _ _ => false,
    isMatch := fun _ _ => false }

/-- Concrete internal link used by witness statements. -/
def sampleLink : MdLink :=
  { source := { text := "other.md", pathText := "other.md",
                hrefRange := sampleRange, fragmentRange := none },
    href := .internal "other.md" "" }

/-- Concrete diagnostic options used by witness statements. -/
def sampleOptions : DiagnosticOptions :=
  { enabled := true,
    validateReferences := none,
    validateFragmentLinks := none,
    validateFileLinks := some .warning,
    validateMarkdownFileLinkFragments := none,
    ignoreLinks := [] }

/-- Concrete in-flight state used by witness statements. -/
def sampleInflight : InflightState :=
  { inFlightRequests := [("a", 7)], cancelled := [], nextId := 8 }

/-- Concrete watcher state used by witness statements: document "d" last
reported a single link to path "p". -/
def sampleWatcher : LinkWatcherState :=
  { watchers := [("p", ["d"])], reported := [("d", ["p"])] }

end Diag

namespace Merge

/-- Abstract text models (`ITextModel`), compared by identity token. -/
structure TextModel where
  id : Nat
deriving DecidableEq, Repr

/-- The resolved `MergeEditorModel` of a `MergeEditorInput`. -/
structure MergeEditorModel where
  base : TextModel
  input1 : TextModel
  input2 : TextModel
  result : TextModel
deriving DecidableEq, Repr

/-- The three editor panes of the merge editor. -/
inductive PaneId
  | input1
  | input2
  | result
deriving DecidableEq, Repr

/-- A grid of views (`vs/base/browser/ui/grid`). -/
inductive GridNode
  | leaf (v : PaneId)
  | branch (children : List GridNode)

/-- The grid built by `MergeEditor.createEditorControl`: a vertical split of
a horizontal pair (input 1, input 2) over the result view. -/
def mergeEditorGrid : GridNode :=
  .branch [.branch [.leaf .input1, .leaf .input2], .leaf .result]

mutual

/-- The editor panes of a grid, in layout order. -/
def gridLeaves : GridNode → List PaneId
  | .leaf v => [v]
  | .branch children => gridLeavesList children

/-- The editor panes of a forest of grid nodes, in layout order. -/
def gridLeavesList : List GridNode → List PaneId
  | [] => []
  | c :: cs => gridLeaves c ++ gridLeavesList cs

end

/-- A code editor widget: the text model currently set on it. -/
structure CodeEditor where
  model : Option TextModel
deriving DecidableEq, Repr

/-- A `CodeEditorView` of the merge editor: its editor widget plus the title
and detail labels set by `setModel`. -/
structure CodeEditorView where
  editor : CodeEditor
  title : String
  description : Option String
deriving DecidableEq, Repr

/-- `CodeEditorView.setModel`: bind the text model, set the labels. -/
def viewSetModel (v : CodeEditorView) (textModel : TextModel) (title : String)
    (description : Option String) : CodeEditorView :=
  { v with editor := { model := some textModel },
           title := title, description := description }

/-- The `MergeEditor` state touched by `setInput`. -/
structure MergeEditorState where
  input1View : CodeEditorView
  input2View : CodeEditorView
  inputResultView : CodeEditorView
  model : Option MergeEditorModel
deriving DecidableEq, Repr

/-- Editor inputs: a `MergeEditorInput` carries the model it resolves to. -/
inductive EditorInput
  | mergeInput (resolved : MergeEditorModel)
  | otherInput
deriving DecidableEq, Repr

/-- `MergeEditor.setInput`: rejects anything but a `MergeEditorInput`, then
resolves the model and binds input1 to the first input view, input2 to the
second, and result to the result view. -/
def setInput (st : MergeEditorState) (input : EditorInput) :
    Except String MergeEditorState :=
  match input with
  | .otherInput => .error "ONLY MergeEditorInput is supported"
  | .mergeInput model =>
    .ok { st with
      model := some model,
      input1View := viewSetModel st.input1View model.input1 "Yours" none,
      input2View := viewSetModel st.input2View model.input2 "Theirs" none,
      inputResultView := viewSetModel st.inputResultView model.result "Result" none }

/-- `ToggleState` of a modified base range (from the merge editor model). -/
inductive ToggleState
  | unset
  | conflicting
  | first
  | second
deriving DecidableEq, Repr

/-- The codicons used by the gutter checkbox. -/
inductive Codicon
  | check
  | checkAll
  | circleFilled
deriving DecidableEq, Repr

/-- Rendered state of the gutter checkbox (`Toggle`). -/
structure CheckboxView where
  icon : Option Codicon
  checked : Bool
  disabled : Bool
deriving DecidableEq, Repr

/-- The `iconMap` of `MergeConflictGutterItemView`'s autorun. -/
def iconMapOf : ToggleState → Option Codicon × Bool
  | .unset => (none, false)
  | .conflicting => (some .circleFilled, false)
  | .first => (some .check, true)
  | .second => (some .checkAll, true)

/-- One run of the `MergeConflictGutterItemView` autorun: set the icon and
checked state from the toggle state, and disable the checkbox exactly when
the item's `enabled` observable reads false. -/
def renderToggle (state : ToggleState) (enabled : Bool) : CheckboxView :=
  { icon := (iconMapOf state).1,
    checked := (iconMapOf state).2,
    disabled := !enabled }

/-- Concrete code editor view used by witness statements. -/
def sampleView : CodeEditorView :=
  { editor := { model := none }, title := "", description := none }

/-- Concrete merge editor state used by witness statements. -/
def sampleMergeState : MergeEditorState :=
  { input1View := sampleView, input2View := sampleView,
    inputResultView := sampleView, model := none }

/-- Concrete resolved merge model used by witness statements. -/
def sampleModel : MergeEditorModel :=
  { base := { id := 0 }, input1 := { id := 1 }, input2 := { id := 2 }, result := { id := 3 } }

/-- The state `setInput` produces on the sample input. -/
def sampleMergeStateAfter : MergeEditorState :=
  { input1View := viewSetModel sampleView sampleModel.input1 "Yours" none,
    input2View := viewSetModel sampleView sampleModel.input2 "Theirs" none,
    inputResultView := viewSetModel sampleView sampleModel.result "Result" none,
    model := some sampleModel }

end Merge

namespace Optimize

/-- A vinyl file flowing through the gulp streams. -/
structure VinylFile where
  path : String
  contents : String
deriving DecidableEq, Repr

/-- The `order` function of `loader` in optimize.js. -/
def order (f : VinylFile) : Nat :=
  if f.path.endsWith "loader.js" then 0
  else if f.path.endsWith "css.js" then 1
  else if f.path.endsWith "nls.js" then 2
  else 3

/-- The `require.config(...)` trailer appended for `externalLoaderInfo`. -/
def externalLoaderFile (info : String) : VinylFile :=
  { path := "fake2", contents := "require.config(" ++ info ++ ");" }

/-- The end handler of the `loader` stream: stable-sort the collected files
by `order`, prepend the bundled file header, and append the
`require.config` fragment when `externalLoaderInfo` is defined. -/
def loaderFiles (collected : List VinylFile) (bundledFileHeader : String)
    (externalLoaderInfo : Option String) : List VinylFile :=
  let sorted := collected.mergeSort (fun a b => decide (order a ≤ order b))
  let withHeader := { path := "fake", contents := bundledFileHeader } :: sorted
  match externalLoaderInfo with
  | some info => withHeader ++ [externalLoaderFile info]
  | none => withHeader

/-- The final `concat('vs/loader.js')` step: one output file whose contents
concatenate the parts in stream order. -/
def loaderOutput (collected : List VinylFile) (bundledFileHeader : String)
    (externalLoaderInfo : Option String) : VinylFile :=
  { path := "vs/loader.js",
    contents := String.join
      ((loaderFiles collected bundledFileHeader externalLoaderInfo).map
        (fun f => f.contents)) }

end Optimize

namespace Diag

theorem mapGet_mapSet_self (r : Uri) (v : α) (m : List (Uri × α)) :
    mapGet r (mapSet r v m) = some v := by
  induction m with
  | nil => simp [mapGet, mapSet]
  | cons kv tl ih =>
    by_cases hk : kv.1 = r
    · simp [mapGet, mapSet, hk]
    · simpa [mapGet, mapSet, hk] using ih

theorem mapGet_mapSet_other (r s : Uri) (v : α) (m : List (Uri × α)) (h : s ≠ r) :
    mapGet s (mapSet r v m) = mapGet s m := by
  have hrs : ¬(r = s) := fun hh => h hh.symm
  induction m with
  | nil => simp [mapGet, mapSet, hrs]
  | cons kv tl ih =>
    by_cases hkr : kv.1 = r
    · have hks : ¬(kv.1 = s) := hkr ▸ hrs
      simp [mapGet, mapSet, hkr, hks, hrs]
    · by_cases hks : kv.1 = s
      · simp [mapGet, mapSet, hkr, hks, h]
      · simpa [mapGet, mapSet, hkr, hks] using ih

theorem mapGet_mapDelete_self (r : Uri) (m : List (Uri × α)) :
    mapGet r (mapDelete r m) = none := by
  induction m with
  | nil => simp [mapGet, mapDelete]
  | cons kv tl ih =>
    by_cases hk : kv.1 = r
    · simpa [mapGet, mapDelete, hk] using ih
    · simpa [mapGet, mapDelete, hk] using ih

theorem mapSet_cons_eq (r : Uri) (v : α) (kv : Uri × α) (tl : List (Uri × α))
    (hk : kv.1 = r) : mapSet r v (kv :: tl) = (kv.1, v) :: tl := by
  simp [mapSet, hk]

theorem mapSet_cons_ne (r : Uri) (v : α) (kv : Uri × α) (tl : List (Uri × α))
    (hk : ¬(kv.1 = r)) : mapSet r v (kv :: tl) = kv :: mapSet r v tl := by
  simp [mapSet, hk]

theorem mem_keys_mapSet (r x : Uri) (v : α) (m : List (Uri × α))
    (hx : x ∈ (mapSet r v m).map Prod.fst) : x ∈ m.map Prod.fst ∨ x = r := by
  induction m with
  | nil =>
    simp only [mapSet, List.map_cons, List.map_nil, List.mem_singleton] at hx
    exact Or.inr hx
  | cons kv tl ih =>
    by_cases hk : kv.1 = r
    · rw [mapSet_cons_eq r v kv tl hk, List.map_cons, List.mem_cons] at hx
      rw [List.map_cons, List.mem_cons]
      rcases hx with hx | hx
      · exact Or.inl (Or.inl hx)
      · exact Or.inl (Or.inr hx)
    · rw [mapSet_cons_ne r v kv tl hk, List.map_cons, List.mem_cons] at hx
      rw [List.map_cons, List.mem_cons]
      rcases hx with hx | hx
      · exact Or.inl (Or.inl hx)
      · rcases ih hx with hm | hr
        · exact Or.inl (Or.inr hm)
        · exact Or.inr hr

theorem nodup_keys_mapSet (r : Uri) (v : α) (m : List (Uri × α))
    (h : (m.map Prod.fst).Nodup) : ((mapSet r v m).map Prod.fst).Nodup := by
  induction m with
  | nil => simp [mapSet]
  | cons kv tl ih =>
    by_cases hk : kv.1 = r
    · rw [mapSet_cons_eq r v kv tl hk]
      simpa using h
    · rw [mapSet_cons_ne r v kv tl hk, List.map_cons, List.nodup_cons]
      rw [List.map_cons, List.nodup_cons] at h
      refine ⟨?_, ih h.2⟩
      intro hx
      rcases mem_keys_mapSet r kv.1 v tl hx with hin | hrr
      · exact h.1 hin
      · exact hk hrr

theorem nodup_keys_mapDelete (r : Uri) (m : List (Uri × α))
    (h : (m.map Prod.fst).Nodup) : ((mapDelete r m).map Prod.fst).Nodup :=
  h.sublist ((List.filter_sublist m).map Prod.fst)

theorem mem_setAdd (u v : Uri) (s : List Uri) :
    u ∈ setAdd v s ↔ u ∈ s ∨ u = v := by
  unfold setAdd
  by_cases h : s.any (fun w => w == v)
  · have hv : v ∈ s := by
      simpa [List.any_eq_true, beq_iff_eq] using h
    simp only [h, if_true]
    constructor
    · exact Or.inl
    · rintro (hu | rfl)
      · exact hu
      · exact hv
  · simp [h]

theorem nodup_setAdd (v : Uri) (s : List Uri) (h : s.Nodup) : (setAdd v s).Nodup := by
  unfold setAdd
  by_cases ha : s.any (fun w => w == v)
  · simpa [ha] using h
  · have hv : v ∉ s := by
      intro hv
      exact ha (by simpa [List.any_eq_true, beq_iff_eq] using hv)
    rw [if_neg ha]
    have hd : s.Disjoint [v] := by
      intro a ha' hav
      simp only [List.mem_singleton] at hav
      exact hv (hav ▸ ha')
    exact h.append (List.nodup_singleton v) hd

theorem anyId_setAddInstance (v : UriInstance) (s : List UriInstance) (i : Nat) :
    (setAddInstance v s).any (fun w => w.id == i) =
      (s.any (fun w => w.id == i) || (v.id == i)) := by
  unfold setAddInstance
  by_cases hp : s.any (fun w => w.id == v.id) = true
  · rw [if_pos hp]
    by_cases hvi : (v.id == i) = true
    · have hvi' : v.id = i := by simpa using hvi
      rcases List.any_eq_true.mp hp with ⟨w, hw, hwid⟩
      have hwi : (w.id == i) = true := by
        have hwv : w.id = v.id := by simpa using hwid
        simp [hwv, hvi']
      have hs : s.any (fun w => w.id == i) = true :=
        List.any_eq_true.mpr ⟨w, hw, hwi⟩
      rw [hs, hvi]
      rfl
    · have hvi' : (v.id == i) = false := by
        simpa using hvi
      rw [hvi', Bool.or_false]
  · rw [if_neg hp, List.any_append]
    simp [List.any_cons]

theorem nodup_ids_setAddInstance (v : UriInstance) (s : List UriInstance)
    (h : (s.map (fun w => w.id)).Nodup) :
    ((setAddInstance v s).map (fun w => w.id)).Nodup := by
  unfold setAddInstance
  by_cases hp : s.any (fun w => w.id == v.id) = true
  · rw [if_pos hp]
    exact h
  · rw [if_neg hp, List.map_append]
    have hvn : v.id ∉ s.map (fun w => w.id) := by
      intro hm
      apply hp
      rcases List.mem_map.mp hm with ⟨w, hw, hwid⟩
      exact List.any_eq_true.mpr ⟨w, hw, by simp [hwid]⟩
    simp only [List.map_cons, List.map_nil]
    refine h.append (List.nodup_singleton _) ?_
    intro a haa hab
    simp only [List.mem_singleton] at hab
    exact hvn (hab ▸ haa)

theorem triggerMany_any_id (st : ManagerState) (uris : List UriInstance) (i : Nat) :
    (triggerMany st uris).pendingDiagnostics.any (fun w => w.id == i) =
      (st.pendingDiagnostics.any (fun w => w.id == i) ||
        uris.any (fun w => w.id == i)) := by
  induction uris generalizing st with
  | nil => simp [triggerMany]
  | cons a tl ih =>
    have step : triggerMany st (a :: tl) = triggerMany (triggerDiagnostics st a) tl := rfl
    rw [step, ih]
    simp [triggerDiagnostics, anyId_setAddInstance, List.any_cons, Bool.or_assoc]

theorem triggerMany_nodup_ids (st : ManagerState) (uris : List UriInstance)
    (h : (st.pendingDiagnostics.map (fun w => w.id)).Nodup) :
    ((triggerMany st uris).pendingDiagnostics.map (fun w => w.id)).Nodup := by
  induction uris generalizing st with
  | nil => simpa [triggerMany] using h
  | cons a tl ih =>
    have step : triggerMany st (a :: tl) = triggerMany (triggerDiagnostics st a) tl := rfl
    rw [step]
    exact ih _ (by simpa [triggerDiagnostics] using nodup_ids_setAddInstance a _ h)

theorem countP_id_eq_count (i : Nat) (l : List UriInstance) :
    l.countP (fun w => w.id == i) = (l.map (fun w => w.id)).count i := by
  induction l with
  | nil => rfl
  | cons a tl ih =>
    rw [List.countP_cons, List.map_cons, List.count_cons, ih]

theorem docsOf_nil (p : Uri) : docsOf p [] = [] := rfl

theorem docsOf_cons (p : Uri) (kv : Uri × List Uri) (tl : List (Uri × List Uri)) :
    docsOf p (kv :: tl) = (if kv.1 == p then kv.2 else []) ++ docsOf p tl := by
  unfold docsOf
  rw [List.filter_cons]
  by_cases hk : (kv.1 == p) = true
  · simp [hk]
  · simp [hk]

theorem docsOf_append (p : Uri) (xs ys : List (Uri × List Uri)) :
    docsOf p (xs ++ ys) = docsOf p xs ++ docsOf p ys := by
  unfold docsOf
  simp [List.filter_append]

theorem docsOf_prune (p : Uri) (ws : List (Uri × List Uri)) :
    docsOf p (pruneEmptyWatchers ws) = docsOf p ws := by
  induction ws with
  | nil => rfl
  | cons kv tl ih =>
    unfold pruneEmptyWatchers at ih ⊢
    by_cases hlen : (kv.2.length == 0) = true
    · have hnil : kv.2 = [] := by
        rw [← List.length_eq_zero]
        simpa using hlen
      rw [List.filter_cons_of_neg (by simp [hlen])]
      rw [ih, docsOf_cons, hnil]
      simp
    · rw [List.filter_cons_of_pos (by simpa using hlen)]
      rw [docsOf_cons, docsOf_cons, ih]

theorem docsOf_removeDocFromAll (p doc : Uri) (ws : List (Uri × List Uri)) :
    docsOf p (removeDocFromAll doc ws) =
      (docsOf p ws).filter (fun d => !(d == doc)) := by
  induction ws with
  | nil => rfl
  | cons kv tl ih =>
    unfold removeDocFromAll at ih ⊢
    rw [List.map_cons, docsOf_cons, docsOf_cons, List.filter_append, ih]
    by_cases hk : kv.1 = p <;> simp [hk]

theorem mem_docsOf_mapAdd (p q doc d : Uri) (ws : List (Uri × List Uri)) :
    d ∈ docsOf p
        (ws.map (fun kv => if kv.1 == q then (kv.1, setAdd doc kv.2) else kv)) ↔
      d ∈ docsOf p ws ∨
        (p = q ∧ d = doc ∧ ws.any (fun kv => kv.1 == q) = true) := by
  induction ws with
  | nil => simp [docsOf_nil]
  | cons kv tl ih =>
    rw [List.map_cons]
    by_cases hkq : kv.1 = q
    · have hbkq : (kv.1 == q) = true := by simpa using hkq
      have hhead : (if kv.1 == q then (kv.1, setAdd doc kv.2) else kv) =
          (kv.1, setAdd doc kv.2) := by simp [hbkq]
      rw [hhead, docsOf_cons, docsOf_cons, List.mem_append, List.mem_append,
        List.any_cons, hbkq, ih]
      simp only [Bool.true_or]
      by_cases hkp : kv.1 = p
      · have hbkp : ((kv.1, setAdd doc kv.2).1 == p) = true := by simpa using hkp
        have hbkp' : (kv.1 == p) = true := by simpa using hkp
        have hpq : p = q := by rw [← hkp, hkq]
        rw [if_pos hbkp, if_pos hbkp', mem_setAdd]
        constructor
        · rintro ((hd | hd) | (hd | ⟨_, hd, _⟩))
          · exact Or.inl (Or.inl hd)
          · exact Or.inr ⟨hpq, hd, trivial⟩
          · exact Or.inl (Or.inr hd)
          · exact Or.inr ⟨hpq, hd, trivial⟩
        · rintro ((hd | hd) | ⟨_, hd, _⟩)
          · exact Or.inl (Or.inl hd)
          · exact Or.inr (Or.inl hd)
          · exact Or.inl (Or.inr hd)
      · have hnb : ¬(((kv.1, setAdd doc kv.2).1 == p) = true) := by simpa using hkp
        have hnb' : ¬((kv.1 == p) = true) := by simpa using hkp
        have hpq : ¬(p = q) := fun hh => hkp (hkq.trans hh.symm)
        rw [if_neg hnb, if_neg hnb']
        simp only [List.not_mem_nil, false_or]
        constructor
        · rintro (hd | ⟨hc, hdd, _⟩)
          · exact Or.inl hd
          · exact absurd hc hpq
        · rintro (hd | ⟨hc, hdd, _⟩)
          · exact Or.inl hd
          · exact absurd hc hpq
    · have hbkq : (kv.1 == q) = false := by simpa using hkq
      have hnbq : ¬((kv.1 == q) = true) := by simp [hbkq]
      have hhead : (if kv.1 == q then (kv.1, setAdd doc kv.2) else kv) = kv := by
        simp [hbkq]
      rw [hhead, docsOf_cons, docsOf_cons, List.mem_append, List.mem_append,
        List.any_cons, hbkq, ih]
      simp only [Bool.false_or]
      tauto

theorem mem_docsOf_addDocForPath (p q doc d : Uri) (ws : List (Uri × List Uri)) :
    d ∈ docsOf p (addDocForPath doc ws q) ↔
      d ∈ docsOf p ws ∨ (p = q ∧ d = doc) := by
  unfold addDocForPath
  by_cases ha : ws.any (fun kv => kv.1 == q) = true
  · rw [if_pos ha, mem_docsOf_mapAdd]
    simp [ha]
  · rw [if_neg ha, docsOf_append, docsOf_cons, docsOf_nil]
    rw [List.mem_append]
    by_cases hqp : q = p
    · subst hqp
      simp only [beq_self_eq_true, if_true, List.append_nil, docsOf_nil]
      constructor
      · rintro (hd | hd)
        · exact Or.inl hd
        · exact Or.inr ⟨trivial, by simpa using hd⟩
      · rintro (hd | ⟨_, hd⟩)
        · exact Or.inl hd
        · exact Or.inr (by simpa using hd)
    · have hbqp : (q == p) = false := by simpa using hqp
      have hpq : ¬(p = q) := fun hh => hqp hh.symm
      simp [hbqp, hpq]

theorem mem_docsOf_foldl_add (p doc d : Uri) (paths : List Uri)
    (ws : List (Uri × List Uri)) :
    d ∈ docsOf p (paths.foldl (addDocForPath doc) ws) ↔
      d ∈ docsOf p ws ∨ (p ∈ paths ∧ d = doc) := by
  induction paths generalizing ws with
  | nil => simp
  | cons a tl ih =>
    rw [List.foldl_cons, ih, mem_docsOf_addDocForPath]
    simp only [List.mem_cons]
    constructor
    · rintro ((hd | ⟨hpa, hdd⟩) | ⟨hp, hdd⟩)
      · exact Or.inl hd
      · exact Or.inr ⟨Or.inl hpa, hdd⟩
      · exact Or.inr ⟨Or.inr hp, hdd⟩
    · rintro (hd | ⟨hpa | hp, hdd⟩)
      · exact Or.inl (Or.inl hd)
      · exact Or.inl (Or.inr ⟨hpa, hdd⟩)
      · exact Or.inr ⟨hp, hdd⟩

theorem mem_docsOf_updateLinks (st : LinkWatcherState) (doc : Uri)
    (links : List MdLink) (p d : Uri) :
    d ∈ docsOf p (updateLinksForDocument st doc links).watchers ↔
      (d ∈ docsOf p st.watchers ∧ ¬(d = doc)) ∨
        (p ∈ internalPaths links ∧ d = doc) := by
  unfold updateLinksForDocument
  rw [docsOf_prune, mem_docsOf_foldl_add, docsOf_removeDocFromAll]
  rw [List.mem_filter]
  simp

theorem pruneEmptyWatchers_nonempty (ws : List (Uri × List Uri)) :
    ∀ kv ∈ pruneEmptyWatchers ws, kv.2 ≠ [] := by
  intro kv hkv
  have hh := List.of_mem_filter hkv
  intro hnil
  simp [hnil] at hh

theorem mem_keys_iff_docsOf_ne_nil (p : Uri) (ws : List (Uri × List Uri))
    (hne : ∀ kv ∈ ws, kv.2 ≠ []) :
    p ∈ ws.map Prod.fst ↔ docsOf p ws ≠ [] := by
  induction ws with
  | nil => simp [docsOf_nil]
  | cons kv tl ih =>
    rw [List.map_cons, List.mem_cons, docsOf_cons]
    have ihh := ih (fun kv h => hne kv (List.mem_cons_of_mem _ h))
    by_cases hk : kv.1 = p
    · have hh : kv.2 ≠ [] := hne kv (List.mem_cons_self _ _)
      simp only [hk, beq_self_eq_true, if_true]
      constructor
      · intro _ hap
        rcases List.append_eq_nil.mp hap with ⟨h2, _⟩
        exact hh h2
      · intro _
        exact Or.inl trivial
    · have hbk : (kv.1 == p) = false := by simpa using hk
      simp only [hbk, Bool.false_eq_true, if_false, List.nil_append]
      rw [← ihh]
      constructor
      · rintro (hp | hp)
        · exact absurd hp.symm hk
        · exact hp
      · exact Or.inr

theorem reportedPaths_update_self (st : LinkWatcherState) (doc : Uri)
    (links : List MdLink) :
    reportedPaths (updateLinksForDocument st doc links) doc = internalPaths links := by
  unfold updateLinksForDocument reportedPaths
  simp [mapGet_mapSet_self]

theorem reportedPaths_update_other (st : LinkWatcherState) (doc : Uri)
    (links : List MdLink) (d : Uri) (h : d ≠ doc) :
    reportedPaths (updateLinksForDocument st doc links) d = reportedPaths st d := by
  unfold updateLinksForDocument reportedPaths
  rw [mapGet_mapSet_other doc d (internalPaths links) st.reported h]

end Diag

namespace Optimize

theorem order_le_three (f : VinylFile) : order f ≤ 3 := by
  unfold order
  by_cases h1 : f.path.endsWith "loader.js" <;>
    by_cases h2 : f.path.endsWith "css.js" <;>
    by_cases h3 : f.path.endsWith "nls.js" <;>
    simp [h1, h2, h3]

theorem loaderLe_trans : ∀ (a b c : VinylFile),
    (fun a b => decide (order a ≤ order b)) a b →
    (fun a b => decide (order a ≤ order b)) b c →
    (fun a b => decide (order a ≤ order b)) a c := by
  intro a b c hab hbc
  simp only [decide_eq_true_eq] at hab hbc ⊢
  omega

theorem loaderLe_total : ∀ (a b : VinylFile),
    ((fun a b => decide (order a ≤ order b)) a b ||
     (fun a b => decide (order a ≤ order b)) b a) := by
  intro a b
  simp only [Bool.or_eq_true, decide_eq_true_eq]
  omega

theorem filter_bucket_of_true (p : VinylFile → Bool) (j : Nat) (tl : List VinylFile)
    (h : ∀ f : VinylFile, order f = j → p f = true) :
    (tl.filter (fun f => order f == j)).filter p = tl.filter (fun f => order f == j) := by
  apply List.filter_eq_self.mpr
  intro b hb
  have hj := List.of_mem_filter hb
  exact h b (by simpa using hj)

theorem filter_bucket_of_false (p : VinylFile → Bool) (j : Nat) (tl : List VinylFile)
    (h : ∀ f : VinylFile, order f = j → p f = false) :
    (tl.filter (fun f => order f == j)).filter p = [] := by
  apply List.filter_eq_nil_iff.mpr
  intro b hb
  have hj := List.of_mem_filter hb
  simp [h b (by simpa using hj)]

theorem mergeSort_order_buckets (l : List VinylFile) :
    l.mergeSort (fun a b => decide (order a ≤ order b)) =
      ((l.filter (fun f => order f == 0) ++ l.filter (fun f => order f == 1)) ++
        l.filter (fun f => order f == 2)) ++ l.filter (fun f => order f == 3) := by
  induction l with
  | nil => simp
  | cons a tl ih =>
    obtain ⟨l₁, l₂, h₁, h₂, h₃⟩ :=
      List.mergeSort_cons loaderLe_trans loaderLe_total a tl
    have hs := List.sorted_mergeSort loaderLe_trans loaderLe_total (a :: tl)
    rw [h₁] at hs
    have hl₂ : ∀ b ∈ l₂, order a ≤ order b := by
      intro b hb
      have hp := (List.pairwise_append.mp hs).2.1
      have := (List.pairwise_cons.mp hp).1 b hb
      simpa using this
    have hl₁ : ∀ b ∈ l₁, order b < order a := by
      intro b hb
      have hba := h₃ b hb
      simp only [Bool.not_eq_true', decide_eq_false_iff_not] at hba
      omega
    have hb : l₁ ++ l₂ =
        ((tl.filter (fun f => order f == 0) ++ tl.filter (fun f => order f == 1)) ++
          tl.filter (fun f => order f == 2)) ++ tl.filter (fun f => order f == 3) :=
      h₂.symm.trans ih
    have hfil₁ : l₁ = (l₁ ++ l₂).filter (fun f => decide (order f < order a)) := by
      rw [List.filter_append,
        List.filter_eq_self.mpr (fun b hb => by simpa using hl₁ b hb),
        List.filter_eq_nil_iff.mpr
          (fun b hb => by simpa using Nat.not_lt.mpr (hl₂ b hb)),
        List.append_nil]
    have hfil₂ : l₂ = (l₁ ++ l₂).filter (fun f => decide (order a ≤ order f)) := by
      rw [List.filter_append,
        List.filter_eq_nil_iff.mpr
          (fun b hb => by simpa using Nat.not_le.mpr (hl₁ b hb)),
        List.filter_eq_self.mpr (fun b hb => by simpa using hl₂ b hb),
        List.nil_append]
    have hka := order_le_three a
    have hk : order a = 0 ∨ order a = 1 ∨ order a = 2 ∨ order a = 3 := by omega
    rcases hk with hk | hk | hk | hk
    · have e₁ : l₁ = [] := by
        rw [hfil₁, hb, hk]
        simp only [List.filter_append]
        rw [filter_bucket_of_false _ 0 tl (fun f hf => by simp [hf]),
            filter_bucket_of_false _ 1 tl (fun f hf => by simp [hf]),
            filter_bucket_of_false _ 2 tl (fun f hf => by simp [hf]),
            filter_bucket_of_false _ 3 tl (fun f hf => by simp [hf])]
        simp
      have e₂ : l₂ =
          ((tl.filter (fun f => order f == 0) ++ tl.filter (fun f => order f == 1)) ++
            tl.filter (fun f => order f == 2)) ++ tl.filter (fun f => order f == 3) := by
        rw [hfil₂, hb, hk]
        simp only [List.filter_append]
        rw [filter_bucket_of_true _ 0 tl (fun f hf => by simp [hf]),
            filter_bucket_of_true _ 1 tl (fun f hf => by simp [hf]),
            filter_bucket_of_true _ 2 tl (fun f hf => by simp [hf]),
            filter_bucket_of_true _ 3 tl (fun f hf => by simp [hf])]
      rw [h₁, e₁, e₂]
      simp [List.filter_cons, hk, List.append_assoc]
    · have e₁ : l₁ = tl.filter (fun f => order f == 0) := by
        rw [hfil₁, hb, hk]
        simp only [List.filter_append]
        rw [filter_bucket_of_true _ 0 tl (fun f hf => by simp [hf]),
            filter_bucket_of_false _ 1 tl (fun f hf => by simp [hf]),
            filter_bucket_of_false _ 2 tl (fun f hf => by simp [hf]),
            filter_bucket_of_false _ 3 tl (fun f hf => by simp [hf])]
        simp
      have e₂ : l₂ =
          (tl.filter (fun f => order f == 1) ++ tl.filter (fun f => order f == 2)) ++
            tl.filter (fun f => order f == 3) := by
        rw [hfil₂, hb, hk]
        simp only [List.filter_append]
        rw [filter_bucket_of_false _ 0 tl (fun f hf => by simp [hf]),
            filter_bucket_of_true _ 1 tl (fun f hf => by simp [hf]),
            filter_bucket_of_true _ 2 tl (fun f hf => by simp [hf]),
            filter_bucket_of_true _ 3 tl (fun f hf => by simp [hf])]
        simp
      rw [h₁, e₁, e₂]
      simp [List.filter_cons, hk, List.append_assoc]
    · have e₁ : l₁ =
          tl.filter (fun f => order f == 0) ++ tl.filter (fun f => order f == 1) := by
        rw [hfil₁, hb, hk]
        simp only [List.filter_append]
        rw [filter_bucket_of_true _ 0 tl (fun f hf => by simp [hf]),
            filter_bucket_of_true _ 1 tl (fun f hf => by simp [hf]),
            filter_bucket_of_false _ 2 tl (fun f hf => by simp [hf]),
            filter_bucket_of_false _ 3 tl (fun f hf => by simp [hf])]
        simp
      have e₂ : l₂ =
          tl.filter (fun f => order f == 2) ++ tl.filter (fun f => order f == 3) := by
        rw [hfil₂, hb, hk]
        simp only [List.filter_append]
        rw [filter_bucket_of_false _ 0 tl (fun f hf => by simp [hf]),
            filter_bucket_of_false _ 1 tl (fun f hf => by simp [hf]),
            filter_bucket_of_true _ 2 tl (fun f hf => by simp [hf]),
            filter_bucket_of_true _ 3 tl (fun f hf => by simp [hf])]
        simp
      rw [h₁, e₁, e₂]
      simp [List.filter_cons, hk, List.append_assoc]
    · have e₁ : l₁ =
          (tl.filter (fun f => order f == 0) ++ tl.filter (fun f => order f == 1)) ++
            tl.filter (fun f => order f == 2) := by
        rw [hfil₁, hb, hk]
        simp only [List.filter_append]
        rw [filter_bucket_of_true _ 0 tl (fun f hf => by simp [hf]),
            filter_bucket_of_true _ 1 tl (fun f hf => by simp [hf]),
            filter_bucket_of_true _ 2 tl (fun f hf => by simp [hf]),
            filter_bucket_of_false _ 3 tl (fun f hf => by simp [hf])]
        simp
      have e₂ : l₂ = tl.filter (fun f => order f == 3) := by
        rw [hfil₂, hb, hk]
        simp only [List.filter_append]
        rw [filter_bucket_of_false _ 0 tl (fun f hf => by simp [hf]),
            filter_bucket_of_false _ 1 tl (fun f hf => by simp [hf]),
            filter_bucket_of_false _ 2 tl (fun f hf => by simp [hf]),
            filter_bucket_of_true _ 3 tl (fun f hf => by simp [hf])]
        simp
      rw [h₁, e₁, e₂]
      simp [List.filter_cons, hk, List.append_assoc]

end Optimize

/-- C8: the concatenated `vs/loader.js` bundle holds its parts in a fixed
order: the bundled file header first, then the collected files stably
sorted by the order function (loader.js files, then css.js, then nls.js,
then the rest), and when `externalLoaderInfo` is defined a final
`require.config(...)` fragment after all other files. -/
theorem loaderBundleOrder (collected : List Optimize.VinylFile)
    (header : String) (ext : Option String) :
    Optimize.loaderFiles collected header ext =
      { path := "fake", contents := header } ::
        ((((collected.filter (fun f => Optimize.order f == 0) ++
            collected.filter (fun f => Optimize.order f == 1)) ++
            collected.filter (fun f => Optimize.order f == 2)) ++
            collected.filter (fun f => Optimize.order f == 3)) ++
          (match ext with
           | some info => [Optimize.externalLoaderFile info]
           | none => [])) ∧
    (Optimize.loaderOutput collected header ext).path = "vs/loader.js" := by
  constructor
  · unfold Optimize.loaderFiles
    rw [Optimize.mergeSort_order_buckets]
    cases ext <;> simp
  · rfl

/-- C7: the gutter toggle checkbox is a total function of the conflict's
`ToggleState` (unset has no icon and is unchecked, conflicting shows
circleFilled unchecked, first shows check checked, second shows checkAll
checked), and it is disabled exactly when the item's enabled observable
reads false. -/
theorem mergeConflictToggleRendering :
    (∀ e : Bool,
      Merge.renderToggle .unset e =
        { icon := none, checked := false, disabled := !e } ∧
      Merge.renderToggle .conflicting e =
        { icon := some .circleFilled, checked := false, disabled := !e } ∧
      Merge.renderToggle .first e =
        { icon := some .check, checked := true, disabled := !e } ∧
      Merge.renderToggle .second e =
        { icon := some .checkAll, checked := true, disabled := !e }) ∧
    (∀ (s : Merge.ToggleState) (e : Bool),
      ((Merge.renderToggle s e).disabled = true ↔ e = false)) := by
  constructor
  · intro e
    exact ⟨rfl, rfl, rfl, rfl⟩
  · intro s e
    cases e <;> simp [Merge.renderToggle]

/-- C6: the merge editor grid consists of exactly the two input panes and
the result pane, and every successful `setInput` is on a `MergeEditorInput`
and binds the resolved model's input1, input2 and result text models to the
first input view, the second input view and the result view. -/
theorem mergeEditorPanesAndInputBinding
    (st : Merge.MergeEditorState) (input : Merge.EditorInput)
    (st' : Merge.MergeEditorState) (h : Merge.setInput st input = .ok st') :
    Merge.gridLeaves Merge.mergeEditorGrid = [.input1, .input2, .result] ∧
    ∃ m, input = .mergeInput m ∧
      st'.input1View.editor.model = some m.input1 ∧
      st'.input2View.editor.model = some m.input2 ∧
      st'.inputResultView.editor.model = some m.result ∧
      st'.model = some m := by
  constructor
  · rfl
  · cases input with
    | otherInput => simp [Merge.setInput] at h
    | mergeInput m =>
      simp only [Merge.setInput, Except.ok.injEq] at h
      subst h
      exact ⟨m, rfl, rfl, rfl, rfl, rfl⟩

/-- Witness for C6 at a concrete state and input. -/
theorem mergeEditorPanesAndInputBinding_witness :
    Merge.setInput Merge.sampleMergeState (.mergeInput Merge.sampleModel) =
      .ok Merge.sampleMergeStateAfter ∧
    (Merge.gridLeaves Merge.mergeEditorGrid = [.input1, .input2, .result] ∧
     ∃ m, Merge.EditorInput.mergeInput Merge.sampleModel = .mergeInput m ∧
       Merge.sampleMergeStateAfter.input1View.editor.model = some m.input1 ∧
       Merge.sampleMergeStateAfter.input2View.editor.model = some m.input2 ∧
       Merge.sampleMergeStateAfter.inputResultView.editor.model = some m.result ∧
       Merge.sampleMergeStateAfter.model = some m) :=
  ⟨rfl, mergeEditorPanesAndInputBinding Merge.sampleMergeState _ _ rfl⟩

/-- C9: `DiagnosticCollectionReporter.set` publishes the computed
diagnostics only for a uri open as a text tab in some tab group; for any
other uri it publishes the empty list. -/
theorem reporterPublishesOnlyOpenTabs
    (groups : List Diag.TabGroup)
    (collection : List (Diag.Uri × List Diag.Diagnostic))
    (uri : Diag.Uri) (diagnostics : List Diag.Diagnostic) :
    Diag.mapGet uri (Diag.reporterSet groups collection uri diagnostics) =
      some (if uri ∈ Diag.getAllTabResources groups then diagnostics else []) := by
  unfold Diag.reporterSet
  rw [Diag.mapGet_mapSet_self]
  have hmem : (((Diag.getAllTabResources groups).any (fun v => v == uri)) = true) ↔
      uri ∈ Diag.getAllTabResources groups := by
    rw [List.any_eq_true]
    constructor
    · rintro ⟨x, hx, hbeq⟩
      rw [beq_iff_eq] at hbeq
      exact hbeq ▸ hx
    · intro hin
      exact ⟨uri, hin, by simp⟩
  by_cases h : uri ∈ Diag.getAllTabResources groups
  · rw [if_pos (hmem.mpr h), if_pos h]
  · rw [if_neg (fun hc => h (hmem.mp hc)), if_neg h]

/-- C1: triggering a diagnostics computation cancels and removes any
existing in-flight request for the resource before recording the new one,
records the new request, removes it again when it settles, and keeps the
in-flight map a map (at most one entry per resource). -/
theorem inflightSingleRequest (st : Diag.InflightState) (r : Diag.Uri) (old : Nat)
    (h : Diag.mapGet r st.inFlightRequests = some old) :
    old ∈ (Diag.inflightTriggerStart r st).1.cancelled ∧
    Diag.mapGet r (Diag.inflightCancel r st).inFlightRequests = none ∧
    Diag.mapGet r (Diag.inflightTriggerStart r st).1.inFlightRequests =
      some (Diag.inflightTriggerStart r st).2 ∧
    Diag.mapGet r (Diag.inflightTriggerSettle r (Diag.inflightTriggerStart r st).2
      (Diag.inflightTriggerStart r st).1).inFlightRequests = none ∧
    ((st.inFlightRequests.map Prod.fst).Nodup →
      ((Diag.inflightTriggerStart r st).1.inFlightRequests.map Prod.fst).Nodup) := by
  have hc : Diag.inflightCancel r st =
      { st with cancelled := old :: st.cancelled,
                inFlightRequests := Diag.mapDelete r st.inFlightRequests } := by
    simp [Diag.inflightCancel, h]
  have h1 : (Diag.inflightTriggerStart r st).1.cancelled =
      (Diag.inflightCancel r st).cancelled := rfl
  have h2 : (Diag.inflightTriggerStart r st).1.inFlightRequests =
      Diag.mapSet r (Diag.inflightCancel r st).nextId
        (Diag.inflightCancel r st).inFlightRequests := rfl
  have h3 : (Diag.inflightTriggerStart r st).2 = (Diag.inflightCancel r st).nextId := rfl
  refine ⟨?_, ?_, ?_, ?_, ?_⟩
  · rw [h1, hc]
    exact List.mem_cons_self _ _
  · rw [hc]
    exact Diag.mapGet_mapDelete_self r _
  · rw [h2, h3]
    exact Diag.mapGet_mapSet_self _ _ _
  · unfold Diag.inflightTriggerSettle
    rw [h2, h3, Diag.mapGet_mapSet_self]
    simp [Diag.mapGet_mapDelete_self]
  · intro hnd
    rw [h2, hc]
    exact Diag.nodup_keys_mapSet _ _ _ (Diag.nodup_keys_mapDelete _ _ hnd)

/-- Witness for C1 at a concrete in-flight state. -/
theorem inflightSingleRequest_witness :
    Diag.mapGet "a" Diag.sampleInflight.inFlightRequests = some 7 ∧
    (7 ∈ (Diag.inflightTriggerStart "a" Diag.sampleInflight).1.cancelled ∧
     Diag.mapGet "a" (Diag.inflightCancel "a" Diag.sampleInflight).inFlightRequests = none ∧
     Diag.mapGet "a" (Diag.inflightTriggerStart "a" Diag.sampleInflight).1.inFlightRequests =
       some (Diag.inflightTriggerStart "a" Diag.sampleInflight).2 ∧
     Diag.mapGet "a" (Diag.inflightTriggerSettle "a"
       (Diag.inflightTriggerStart "a" Diag.sampleInflight).2
       (Diag.inflightTriggerStart "a" Diag.sampleInflight).1).inFlightRequests = none ∧
     ((Diag.sampleInflight.inFlightRequests.map Prod.fst).Nodup →
       ((Diag.inflightTriggerStart "a" Diag.sampleInflight).1.inFlightRequests.map
         Prod.fst).Nodup)) :=
  ⟨by decide, inflightSingleRequest Diag.sampleInflight "a" 7 (by decide)⟩

/-- Counterexample to C2 as stated: `pendingDiagnostics` is a
`Set<vscode.Uri>` of Uri objects, deduplicated by object identity, so two
distinct Uri instances denoting the same resource "a" both stay pending
and the flush recomputes that resource twice, not once. -/
theorem debouncedBatchedRecompute_counterexample :
    ((Diag.recomputePendingDiagnostics (Diag.triggerMany Diag.initManagerState
        [{ id := 0, value := "a" }, { id := 1, value := "a" }])).2).countP
        (fun w => w.value == "a") = 2 ∧
    ¬(((Diag.recomputePendingDiagnostics (Diag.triggerMany Diag.initManagerState
        [{ id := 0, value := "a" }, { id := 1, value := "a" }])).2).countP
        (fun w => w.value == "a") ≤ 1) := by
  decide

/-- C2 (amended): every `triggerDiagnostics` call adds the Uri object to
the pending set and schedules `recomputePendingDiagnostics` through the
delayer (default delay 300); the delayed run snapshots the whole pending
set, clears it, and recomputes exactly once for each distinct Uri object in
the snapshot — a Uri object triggered several times before the flush is
recomputed only once in that pass (while two distinct objects denoting the
same resource are each processed). -/
theorem debouncedBatchedRecompute (st s : Diag.ManagerState)
    (uris : List Diag.UriInstance) (u v : Diag.UriInstance)
    (hnd : (st.pendingDiagnostics.map (fun w => w.id)).Nodup) :
    (Diag.triggerDiagnostics s v).pendingDiagnostics.any
        (fun w => w.id == v.id) = true ∧
    (Diag.triggerDiagnostics s v).delayerScheduled = true ∧
    Diag.initManagerState.delay = 300 ∧
    (Diag.recomputePendingDiagnostics (Diag.triggerMany st uris)).2 =
      (Diag.triggerMany st uris).pendingDiagnostics ∧
    (Diag.recomputePendingDiagnostics (Diag.triggerMany st uris)).1.pendingDiagnostics
      = [] ∧
    (((Diag.recomputePendingDiagnostics (Diag.triggerMany st uris)).2).map
        (fun w => w.id)).Nodup ∧
    (((Diag.recomputePendingDiagnostics (Diag.triggerMany st uris)).2).any
        (fun w => w.id == u.id) = true ↔
      (st.pendingDiagnostics.any (fun w => w.id == u.id) = true ∨
        uris.any (fun w => w.id == u.id) = true)) ∧
    ((Diag.recomputePendingDiagnostics (Diag.triggerMany st uris)).2).countP
        (fun w => w.id == u.id) ≤ 1 := by
  have hsnap : (Diag.recomputePendingDiagnostics (Diag.triggerMany st uris)).2 =
      (Diag.triggerMany st uris).pendingDiagnostics := rfl
  have hnd' : (((Diag.recomputePendingDiagnostics (Diag.triggerMany st uris)).2).map
      (fun w => w.id)).Nodup := by
    rw [hsnap]
    exact Diag.triggerMany_nodup_ids st uris hnd
  refine ⟨?_, rfl, rfl, hsnap, rfl, hnd', ?_, ?_⟩
  · rw [show (Diag.triggerDiagnostics s v).pendingDiagnostics =
      Diag.setAddInstance v s.pendingDiagnostics from rfl]
    rw [Diag.anyId_setAddInstance]
    simp
  · rw [hsnap, Diag.triggerMany_any_id st uris u.id]
    simp
  · rw [Diag.countP_id_eq_count]
    exact List.nodup_iff_count_le_one.mp hnd' u.id

/-- Witness for C2 (amended) at a concrete manager state and triggers. -/
theorem debouncedBatchedRecompute_witness :
    ((Diag.initManagerState.pendingDiagnostics.map (fun w => w.id)).Nodup) ∧
    ((Diag.triggerDiagnostics Diag.initManagerState
        { id := 2, value := "c" }).pendingDiagnostics.any (fun w => w.id == 2) = true ∧
     (Diag.triggerDiagnostics Diag.initManagerState
        { id := 2, value := "c" }).delayerScheduled = true ∧
     Diag.initManagerState.delay = 300 ∧
     (Diag.recomputePendingDiagnostics (Diag.triggerMany Diag.initManagerState
        [{ id := 0, value := "a" }, { id := 1, value := "b" },
         { id := 0, value := "a" }])).2 =
       (Diag.triggerMany Diag.initManagerState
        [{ id := 0, value := "a" }, { id := 1, value := "b" },
         { id := 0, value := "a" }]).pendingDiagnostics ∧
     (Diag.recomputePendingDiagnostics (Diag.triggerMany Diag.initManagerState
        [{ id := 0, value := "a" }, { id := 1, value := "b" },
         { id := 0, value := "a" }])).1.pendingDiagnostics = [] ∧
     (((Diag.recomputePendingDiagnostics (Diag.triggerMany Diag.initManagerState
        [{ id := 0, value := "a" }, { id := 1, value := "b" },
         { id := 0, value := "a" }])).2).map (fun w => w.id)).Nodup ∧
     (((Diag.recomputePendingDiagnostics (Diag.triggerMany Diag.initManagerState
        [{ id := 0, value := "a" }, { id := 1, value := "b" },
         { id := 0, value := "a" }])).2).any (fun w => w.id == 0) = true ↔
       (Diag.initManagerState.pendingDiagnostics.any (fun w => w.id == 0) = true ∨
        ([{ id := 0, value := "a" }, { id := 1, value := "b" },
          { id := 0, value := "a" }] : List Diag.UriInstance).any
           (fun w => w.id == 0) = true)) ∧
     ((Diag.recomputePendingDiagnostics (Diag.triggerMany Diag.initManagerState
        [{ id := 0, value := "a" }, { id := 1, value := "b" },
         { id := 0, value := "a" }])).2).countP (fun w => w.id == 0) ≤ 1) :=
  ⟨by decide,
   debouncedBatchedRecompute Diag.initManagerState Diag.initManagerState
     [{ id := 0, value := "a" }, { id := 1, value := "b" },
      { id := 0, value := "a" }]
     { id := 0, value := "a" } { id := 2, value := "c" } (by decide)⟩

/-- C4: when a watched linked-to path is created or deleted, the watcher
fires with exactly the documents referencing that path, and the manager
re-triggers diagnostics exactly for those of them that are open markdown
text documents; for a non-watched resource nothing fires and nothing is
re-triggered. -/
theorem fileWatchInvalidationTriggers
    (st st2 : Diag.LinkWatcherState) (openDocs openDocs2 : List Diag.TextDoc)
    (resource resource2 u : Diag.Uri) (docs : List Diag.Uri)
    (h : Diag.onLinkedResourceChanged st resource = some docs) :
    (u ∈ Diag.linkedResourceChangedTriggers st openDocs resource ↔
      u ∈ docs ∧ Diag.openMarkdownDoc openDocs u = true) ∧
    (Diag.onLinkedResourceChanged st2 resource2 = none →
      Diag.linkedResourceChangedTriggers st2 openDocs2 resource2 = []) := by
  constructor
  · rw [show Diag.linkedResourceChangedTriggers st openDocs resource =
        Diag.handleLinkedFileChanged openDocs docs by
      unfold Diag.linkedResourceChangedTriggers
      rw [h]]
    unfold Diag.handleLinkedFileChanged
    rw [List.mem_filterMap]
    constructor
    · rintro ⟨r, hr, hsome⟩
      rcases hfind : openDocs.find? (fun d => d.uri == r) with _ | d
      · rw [hfind] at hsome
        simp at hsome
      · rw [hfind] at hsome
        by_cases hmd : Diag.isMarkdownFile d
        · have hud : d.uri = u := by simpa [hmd] using hsome
          have hru : r = u := by
            have hh := List.find?_some hfind
            rw [beq_iff_eq] at hh
            rw [← hud, hh]
          subst hru
          refine ⟨hr, ?_⟩
          unfold Diag.openMarkdownDoc
          rw [hfind]
          exact hmd
        · simp [hmd] at hsome
    · rintro ⟨hu, hopen⟩
      refine ⟨u, hu, ?_⟩
      unfold Diag.openMarkdownDoc at hopen
      rcases hfind : openDocs.find? (fun d => d.uri == u) with _ | d
      · rw [hfind] at hopen
        simp at hopen
      · rw [hfind] at hopen
        simp only [] at hopen
        have hdu : d.uri = u := by
          have hh := List.find?_some hfind
          rwa [beq_iff_eq] at hh
        simp [hfind, hopen, hdu]
  · intro h2
    unfold Diag.linkedResourceChangedTriggers
    rw [h2]

/-- Witness for C4 at a concrete watcher state, open documents and event. -/
theorem fileWatchInvalidationTriggers_witness :
    Diag.onLinkedResourceChanged Diag.sampleWatcher "p" = some ["d"] ∧
    (("d" ∈ Diag.linkedResourceChangedTriggers Diag.sampleWatcher
        [{ uri := "d", isMarkdown := true }] "p" ↔
      "d" ∈ ["d"] ∧
        Diag.openMarkdownDoc [{ uri := "d", isMarkdown := true }] "d" = true) ∧
     (Diag.onLinkedResourceChanged Diag.initLinkWatcherState "q" = none →
      Diag.linkedResourceChangedTriggers Diag.initLinkWatcherState
        [{ uri := "d", isMarkdown := true }] "q" = [])) :=
  ⟨by decide,
   fileWatchInvalidationTriggers Diag.sampleWatcher Diag.initLinkWatcherState
     [{ uri := "d", isMarkdown := true }] [{ uri := "d", isMarkdown := true }]
     "p" "q" "d" ["d"] (by decide)⟩

/-- C10: after `updateLinksForDocument` (and hence `deleteDocument`), every
retained watcher entry still has at least one referencing document, the
per-document reported links are updated for the document and untouched for
others, and the set of watched paths is exactly the union over all
documents of their last reported internal link paths. -/
theorem linkWatcherInvariantMaintained (st : Diag.LinkWatcherState) (doc : Diag.Uri)
    (links : List Diag.MdLink) (hinv : Diag.WatcherInv st) :
    (∀ kv ∈ (Diag.updateLinksForDocument st doc links).watchers, kv.2 ≠ []) ∧
    Diag.WatcherInv (Diag.updateLinksForDocument st doc links) ∧
    Diag.reportedPaths (Diag.updateLinksForDocument st doc links) doc =
      Diag.internalPaths links ∧
    (∀ d, d ≠ doc →
      Diag.reportedPaths (Diag.updateLinksForDocument st doc links) d =
        Diag.reportedPaths st d) ∧
    (∀ p, p ∈ (Diag.updateLinksForDocument st doc links).watchers.map Prod.fst ↔
      ∃ d, p ∈ Diag.reportedPaths (Diag.updateLinksForDocument st doc links) d) ∧
    Diag.deleteDocument st doc = Diag.updateLinksForDocument st doc [] := by
  have hne : ∀ kv ∈ (Diag.updateLinksForDocument st doc links).watchers, kv.2 ≠ [] := by
    intro kv hkv
    exact Diag.pruneEmptyWatchers_nonempty _ kv hkv
  have hinv' : Diag.WatcherInv (Diag.updateLinksForDocument st doc links) := by
    intro p d
    rw [Diag.mem_docsOf_updateLinks]
    by_cases hd : d = doc
    · subst hd
      rw [Diag.reportedPaths_update_self]
      constructor
      · rintro (⟨_, hc⟩ | ⟨hp, _⟩)
        · exact absurd rfl hc
        · exact hp
      · intro hp
        exact Or.inr ⟨hp, rfl⟩
    · rw [Diag.reportedPaths_update_other st doc links d hd]
      rw [← hinv p d]
      constructor
      · rintro (⟨hm, _⟩ | ⟨_, hdd⟩)
        · exact hm
        · exact absurd hdd hd
      · intro hm
        exact Or.inl ⟨hm, hd⟩
  refine ⟨hne, hinv', Diag.reportedPaths_update_self st doc links,
    fun d hd => Diag.reportedPaths_update_other st doc links d hd, ?_, rfl⟩
  intro p
  rw [Diag.mem_keys_iff_docsOf_ne_nil p _ hne]
  constructor
  · intro hnil
    rcases List.exists_mem_of_ne_nil _ hnil with ⟨d, hd⟩
    exact ⟨d, (hinv' p d).mp hd⟩
  · rintro ⟨d, hd⟩
    have hmem := (hinv' p d).mpr hd
    intro hcon
    rw [hcon] at hmem
    exact List.not_mem_nil d hmem

/-- Witness for C10 at the empty watcher state and a concrete document. -/
theorem linkWatcherInvariantMaintained_witness :
    Diag.WatcherInv Diag.initLinkWatcherState ∧
    ((∀ kv ∈ (Diag.updateLinksForDocument Diag.initLinkWatcherState "d"
        [Diag.sampleLink]).watchers, kv.2 ≠ []) ∧
     Diag.WatcherInv (Diag.updateLinksForDocument Diag.initLinkWatcherState "d"
        [Diag.sampleLink]) ∧
     Diag.reportedPaths (Diag.updateLinksForDocument Diag.initLinkWatcherState "d"
        [Diag.sampleLink]) "d" = Diag.internalPaths [Diag.sampleLink] ∧
     (∀ d, d ≠ "d" →
       Diag.reportedPaths (Diag.updateLinksForDocument Diag.initLinkWatcherState "d"
         [Diag.sampleLink]) d = Diag.reportedPaths Diag.initLinkWatcherState d) ∧
     (∀ p, p ∈ (Diag.updateLinksForDocument Diag.initLinkWatcherState "d"
         [Diag.sampleLink]).watchers.map Prod.fst ↔
       ∃ d, p ∈ Diag.reportedPaths (Diag.updateLinksForDocument
         Diag.initLinkWatcherState "d" [Diag.sampleLink]) d) ∧
     Diag.deleteDocument Diag.initLinkWatcherState "d" =
       Diag.updateLinksForDocument Diag.initLinkWatcherState "d" []) :=
  have hinv : Diag.WatcherInv Diag.initLinkWatcherState := by
    intro p d
    simp [Diag.docsOf_nil, Diag.reportedPaths, Diag.mapGet, Diag.initLinkWatcherState]
  ⟨hinv, linkWatcherInvariantMaintained Diag.initLinkWatcherState "d"
    [Diag.sampleLink] hinv⟩

namespace Diag

theorem entriesOf_nil (p : Uri) : entriesOf p [] = [] := rfl

theorem entriesOf_cons (p : Uri) (kv : Uri × List FileLinkEntry)
    (tl : List (Uri × List FileLinkEntry)) :
    entriesOf p (kv :: tl) = (if kv.1 == p then kv.2 else []) ++ entriesOf p tl := by
  unfold entriesOf
  rw [List.filter_cons]
  by_cases hk : (kv.1 == p) = true
  · simp [hk]
  · simp [hk]

theorem entriesOf_append (p : Uri) (xs ys : List (Uri × List FileLinkEntry)) :
    entriesOf p (xs ++ ys) = entriesOf p xs ++ entriesOf p ys := by
  unfold entriesOf
  simp [List.filter_append]

theorem entriesOf_eq_nil (p : Uri) (m : List (Uri × List FileLinkEntry))
    (h : ∀ kv ∈ m, ¬(kv.1 = p)) : entriesOf p m = [] := by
  unfold entriesOf
  rw [List.filter_eq_nil_iff.mpr (fun kv hkv => by simpa using h kv hkv)]
  rfl

theorem mapAddEntry_id (q : Uri) (e : FileLinkEntry)
    (m : List (Uri × List FileLinkEntry)) (h : ∀ kv ∈ m, ¬(kv.1 = q)) :
    m.map (fun kv => if kv.1 == q then (kv.1, kv.2 ++ [e]) else kv) = m := by
  induction m with
  | nil => rfl
  | cons kv tl ih =>
    rw [List.map_cons, ih (fun kv h' => h kv (List.mem_cons_of_mem _ h'))]
    have hb : (kv.1 == q) = false := by
      simpa using h kv (List.mem_cons_self _ _)
    simp [hb]

theorem keys_mapAddEntry (q : Uri) (e : FileLinkEntry)
    (m : List (Uri × List FileLinkEntry)) :
    (m.map (fun kv => if kv.1 == q then (kv.1, kv.2 ++ [e]) else kv)).map Prod.fst =
      m.map Prod.fst := by
  induction m with
  | nil => rfl
  | cons kv tl ih =>
    rw [List.map_cons, List.map_cons, ih]
    by_cases hb : (kv.1 == q) = true <;> simp [hb]

theorem nodup_keys_fileLinkMapAdd (q : Uri) (e : FileLinkEntry)
    (m : List (Uri × List FileLinkEntry)) (h : (m.map Prod.fst).Nodup) :
    ((fileLinkMapAdd m q e).map Prod.fst).Nodup := by
  unfold fileLinkMapAdd
  by_cases ha : m.any (fun kv => kv.1 == q) = true
  · rw [if_pos ha, keys_mapAddEntry]
    exact h
  · rw [if_neg ha, List.map_append]
    have hq : q ∉ m.map Prod.fst := by
      intro hq
      apply ha
      rcases List.mem_map.mp hq with ⟨kv, hkv, hfst⟩
      exact List.any_eq_true.mpr ⟨kv, hkv, by simp [hfst]⟩
    simp only [List.map_cons, List.map_nil]
    refine h.append (List.nodup_singleton q) ?_
    intro a haa hab
    simp only [List.mem_singleton] at hab
    exact hq (hab ▸ haa)

theorem entriesOf_mapAddEntry (p q : Uri) (e : FileLinkEntry)
    (m : List (Uri × List FileLinkEntry)) (h : (m.map Prod.fst).Nodup)
    (ha : m.any (fun kv => kv.1 == q) = true) :
    entriesOf p (m.map (fun kv => if kv.1 == q then (kv.1, kv.2 ++ [e]) else kv)) =
      entriesOf p m ++ (if q == p then [e] else []) := by
  induction m with
  | nil => simp at ha
  | cons kv tl ih =>
    rw [List.map_cons, List.nodup_cons] at h
    rw [List.map_cons]
    by_cases hkq : kv.1 = q
    · have hnotl : ∀ kv' ∈ tl, ¬(kv'.1 = q) := by
        intro kv' hkv' hq
        exact h.1 (by rw [hkq, ← hq]; exact List.mem_map_of_mem Prod.fst hkv')
      rw [mapAddEntry_id q e tl hnotl]
      have hbq : (kv.1 == q) = true := by simpa using hkq
      rw [hbq]
      simp only [if_true]
      rw [entriesOf_cons, entriesOf_cons]
      have hE : entriesOf p tl = [] ∨ ¬(q = p) := by
        by_cases hqp : q = p
        · refine Or.inl (entriesOf_eq_nil p tl ?_)
          intro kv' hkv' hp
          exact hnotl kv' hkv' (by rw [hp, hqp])
        · exact Or.inr hqp
      by_cases hqp : q = p
      · have hkp : ((kv.1, kv.2 ++ [e]).1 == p) = true := by
          simpa using hkq.trans hqp
        have hkp' : (kv.1 == p) = true := by simpa using hkq.trans hqp
        have hbqp : (q == p) = true := by simpa using hqp
        rcases hE with hE | hE
        · rw [if_pos hkp, if_pos hkp', if_pos hbqp, hE]
          simp
        · exact absurd hqp hE
      · have hkp : ¬(((kv.1, kv.2 ++ [e]).1 == p) = true) := by
          simp only [beq_iff_eq]
          intro hp
          exact hqp (hkq.symm.trans hp)
        have hkp' : ¬((kv.1 == p) = true) := by
          simp only [beq_iff_eq]
          intro hp
          exact hqp (hkq.symm.trans hp)
        have hbqp : ¬((q == p) = true) := by simpa using hqp
        rw [if_neg hkp, if_neg hkp', if_neg hbqp]
        simp
    · have hbq : (kv.1 == q) = false := by simpa using hkq
      have ha' : tl.any (fun kv => kv.1 == q) = true := by
        rcases List.any_eq_true.mp ha with ⟨kv', hkv', hq⟩
        rcases List.mem_cons.mp hkv' with hkv' | hkv'
        · have hcontr : kv.1 = q := by
            rw [← hkv']
            simpa using hq
          exact absurd hcontr hkq
        · exact List.any_eq_true.mpr ⟨kv', hkv', hq⟩
      rw [hbq]
      simp only [Bool.false_eq_true, if_false]
      rw [entriesOf_cons, entriesOf_cons, ih h.2 ha', List.append_assoc]

theorem entriesOf_fileLinkMapAdd (p q : Uri) (e : FileLinkEntry)
    (m : List (Uri × List FileLinkEntry)) (h : (m.map Prod.fst).Nodup) :
    entriesOf p (fileLinkMapAdd m q e) =
      entriesOf p m ++ (if q == p then [e] else []) := by
  unfold fileLinkMapAdd
  by_cases ha : m.any (fun kv => kv.1 == q) = true
  · rw [if_pos ha]
    exact entriesOf_mapAddEntry p q e m h ha
  · rw [if_neg ha, entriesOf_append]
    congr 1
    rw [entriesOf_cons, entriesOf_nil, List.append_nil]

theorem entriesOf_build_go (p : Uri) (ls : List MdLink) :
    ∀ m, (m.map Prod.fst).Nodup →
      entriesOf p (ls.foldl fileLinkMapStep m) =
        entriesOf p m ++ fileLinkTarget p ls ∧
      ((ls.foldl fileLinkMapStep m).map Prod.fst).Nodup := by
  induction ls with
  | nil =>
    intro m h
    refine ⟨?_, h⟩
    simp [fileLinkTarget]
  | cons l tl ih =>
    intro m h
    rw [List.foldl_cons]
    cases hl : l.href with
    | internal q fr =>
      have hstep : fileLinkMapStep m l =
          fileLinkMapAdd m q { source := l.source, fragment := fr } := by
        unfold fileLinkMapStep
        rw [hl]
      rw [hstep]
      obtain ⟨e1, e2⟩ := ih
        (fileLinkMapAdd m q { source := l.source, fragment := fr })
        (nodup_keys_fileLinkMapAdd q _ m h)
      refine ⟨?_, e2⟩
      rw [e1, entriesOf_fileLinkMapAdd p q _ m h]
      unfold fileLinkTarget
      rw [List.filterMap_cons, hl]
      by_cases hqp : (q == p) = true
      · have hqp' : q = p := by simpa using hqp
        rw [if_pos hqp]
        simp [hqp', List.append_assoc]
      · have hqp' : ¬(q = p) := by simpa using hqp
        rw [if_neg hqp]
        simp [hqp']
    | reference r =>
      have hstep : fileLinkMapStep m l = m := by
        unfold fileLinkMapStep
        rw [hl]
      rw [hstep]
      obtain ⟨e1, e2⟩ := ih m h
      refine ⟨?_, e2⟩
      rw [e1]
      unfold fileLinkTarget
      rw [List.filterMap_cons, hl]
    | external =>
      have hstep : fileLinkMapStep m l = m := by
        unfold fileLinkMapStep
        rw [hl]
      rw [hstep]
      obtain ⟨e1, e2⟩ := ih m h
      refine ⟨?_, e2⟩
      rw [e1]
      unfold fileLinkTarget
      rw [List.filterMap_cons, hl]

theorem entriesOf_fileLinkMapBuild (p : Uri) (ls : List MdLink) :
    entriesOf p (fileLinkMapBuild ls) = fileLinkTarget p ls := by
  have h := entriesOf_build_go p ls [] (by simp)
  unfold fileLinkMapBuild
  rw [h.1, entriesOf_nil, List.nil_append]

theorem nodup_keys_fileLinkMapBuild (ls : List MdLink) :
    ((fileLinkMapBuild ls).map Prod.fst).Nodup := by
  have h := entriesOf_build_go "" ls [] (by simp)
  exact h.2

end Diag

namespace Diag

theorem validateFileLinks_eq (env : Env) (options : DiagnosticOptions)
    (links : List MdLink) (token : Bool) (sev : DiagnosticSeverity)
    (hsev : toSeverity options.validateFileLinks = some sev) :
    validateFileLinks env options links token =
      (if ((fileLinkMapBuild (links.filter
            (fun link => !(link.source.text.startsWith "#")))).length == 0) = true
       then []
       else ((fileLinkMapBuild (links.filter
              (fun link => !(link.source.text.startsWith "#")))).map
          (fileLinkGroupDiagnostics env options sev
            (mdFragmentErrorSeverity options) token)).flatten) := by
  unfold validateFileLinks
  rw [hsev]

theorem fileLinkGroupDiagnostics_notExists (env : Env) (options : DiagnosticOptions)
    (sev : DiagnosticSeverity) (fsev : Option DiagnosticSeverity)
    (group : Uri × List FileLinkEntry) (p : Uri) (h1 : group.1 = p)
    (hfind : env.findMdDocForPath p = none) (hpex : env.pathExists p = false) :
    fileLinkGroupDiagnostics env options sev fsev false group =
      group.2.filterMap (fun e =>
        if !(isIgnoredLink env options e.source.pathText) then
          some { range := e.source.hrefRange,
                 message := .fileDoesNotExist p,
                 severity := sev,
                 link := some e.source.pathText }
        else none) := by
  unfold fileLinkGroupDiagnostics
  rw [h1, hfind, hpex]
  simp

theorem fileLinkGroupDiagnostics_shape (env : Env) (options : DiagnosticOptions)
    (sev : DiagnosticSeverity) (fsev : Option DiagnosticSeverity)
    (tok : Bool) (group : Uri × List FileLinkEntry) :
    ∀ d ∈ fileLinkGroupDiagnostics env options sev fsev tok group,
      (∃ e, e ∈ group.2 ∧
        isIgnoredLink env options e.source.pathText = false ∧
        d = { range := e.source.hrefRange, message := .fileDoesNotExist group.1,
              severity := sev, link := some e.source.pathText } ∧
        env.findMdDocForPath group.1 = none ∧
        env.pathExists group.1 = false) ∨
      (∃ fr, d.message = .headerDoesNotExistInFile fr) := by
  intro d hd
  unfold fileLinkGroupDiagnostics at hd
  by_cases ht : tok = true
  · rw [if_pos ht] at hd
    exact absurd hd (List.not_mem_nil d)
  · rw [if_neg ht] at hd
    cases hfind : env.findMdDocForPath group.1 with
    | none =>
      rw [hfind] at hd
      by_cases hpe : env.pathExists group.1 = true
      · rw [hpe] at hd
        simp at hd
      · have hpe' : env.pathExists group.1 = false := by
          simpa using hpe
        rw [hpe'] at hd
        simp only [Bool.not_false, if_true] at hd
        rcases List.mem_filterMap.mp hd with ⟨e, he, hsome⟩
        by_cases hig : isIgnoredLink env options e.source.pathText = true
        · rw [hig] at hsome
          simp at hsome
        · have hig' : isIgnoredLink env options e.source.pathText = false := by
            simpa using hig
          rw [hig'] at hsome
          simp only [Bool.not_false, if_true, Option.some.injEq] at hsome
          exact Or.inl ⟨e, he, hig', hsome.symm, rfl, hpe'⟩
    | some hrefDoc =>
      rw [hfind] at hd
      cases hfv : fsev with
      | none =>
        rw [hfv] at hd
        exact absurd hd (List.not_mem_nil d)
      | some fs =>
        rw [hfv] at hd
        simp only [] at hd
        by_cases hlen : (((group.2.filter (fun x => x.fragment != "")).length != 0) = true)
        · rw [if_pos hlen] at hd
          rcases List.mem_filterMap.mp hd with ⟨e, _, hsome⟩
          by_cases hc : ((!(env.tocLookup hrefDoc e.fragment)
              && !(isIgnoredLink env options e.source.pathText)
              && !(isIgnoredLink env options e.source.text)) = true)
          · rw [if_pos hc] at hsome
            simp only [Option.some.injEq] at hsome
            refine Or.inr ⟨e.fragment, ?_⟩
            rw [← hsome]
          · rw [if_neg hc] at hsome
            simp at hsome
        · rw [if_neg hlen] at hd
          exact absurd hd (List.not_mem_nil d)

theorem countP_flatten_groups (env : Env) (options : DiagnosticOptions)
    (sev : DiagnosticSeverity) (fsev : Option DiagnosticSeverity) (p : Uri)
    (hfind : env.findMdDocForPath p = none) (hpex : env.pathExists p = false)
    (LS : List (Uri × List FileLinkEntry)) :
    ((LS.map (fileLinkGroupDiagnostics env options sev fsev false)).flatten).countP
        (fun dg => dg.message == DiagMessage.fileDoesNotExist p) =
      (entriesOf p LS).countP
        (fun e => !(isIgnoredLink env options e.source.pathText)) := by
  induction LS with
  | nil => rfl
  | cons kv tl ih =>
    rw [List.map_cons, List.flatten_cons, List.countP_append, entriesOf_cons,
      List.countP_append, ih]
    congr 1
    by_cases hkp : kv.1 = p
    · have hbkp : (kv.1 == p) = true := by simpa using hkp
      rw [if_pos hbkp,
        fileLinkGroupDiagnostics_notExists env options sev fsev kv p hkp hfind hpex]
      have hall : ∀ d ∈ kv.2.filterMap (fun e =>
          if !(isIgnoredLink env options e.source.pathText) then
            some ({ range := e.source.hrefRange,
                    message := .fileDoesNotExist p,
                    severity := sev,
                    link := some e.source.pathText } : Diagnostic)
          else none),
          (fun dg => dg.message == DiagMessage.fileDoesNotExist p) d = true := by
        intro d hd
        rcases List.mem_filterMap.mp hd with ⟨e, _, hsome⟩
        by_cases hig : isIgnoredLink env options e.source.pathText = true
        · rw [hig] at hsome
          simp at hsome
        · have hig' : isIgnoredLink env options e.source.pathText = false := by
            simpa using hig
          rw [hig'] at hsome
          simp only [Bool.not_false, if_true, Option.some.injEq] at hsome
          rw [← hsome]
          simp
      rw [List.countP_eq_length.mpr hall, List.length_filterMap_eq_countP]
      apply List.countP_congr
      intro e _
      by_cases hig : isIgnoredLink env options e.source.pathText = true
      · simp [hig]
      · have hig' : isIgnoredLink env options e.source.pathText = false := by
          simpa using hig
        simp [hig']
    · have hbkp : ¬((kv.1 == p) = true) := by simpa using hkp
      rw [if_neg hbkp]
      simp only [List.countP_nil]
      rw [List.countP_eq_zero]
      intro d hd
      rcases fileLinkGroupDiagnostics_shape env options sev fsev false kv d hd with
        ⟨e, _, _, hde, _, _⟩ | ⟨fr, hmsg⟩
      · rw [hde]
        simp only [beq_iff_eq, DiagMessage.fileDoesNotExist.injEq]
        exact hkp
      · intro hbeq
        rw [beq_iff_eq] at hbeq
        rw [hbeq] at hmsg
        exact DiagMessage.noConfusion hmsg

end Diag

namespace Diag

theorem countP_fileLinkTarget_eq (env : Env) (options : DiagnosticOptions)
    (p : Uri) (links : List MdLink) :
    (fileLinkTarget p (links.filter
        (fun l => !(l.source.text.startsWith "#")))).countP
        (fun e => !(isIgnoredLink env options e.source.pathText)) =
      links.countP (fun l =>
        (match l.href with
         | .internal q _ => q == p
         | _ => false) &&
        (!(l.source.text.startsWith "#") &&
         !(isIgnoredLink env options l.source.pathText))) := by
  induction links with
  | nil => rfl
  | cons l tl ih =>
    have hfold : List.filterMap (fun l =>
        match l.href with
        | Href.internal q fragment =>
          if q == p then some { source := l.source, fragment := fragment }
          else none
        | _ => none)
        (tl.filter (fun l => !(l.source.text.startsWith "#"))) =
        fileLinkTarget p (tl.filter (fun l => !(l.source.text.startsWith "#"))) :=
      rfl
    rw [List.filter_cons, List.countP_cons]
    by_cases hh : (!(l.source.text.startsWith "#")) = true
    · rw [if_pos hh]
      unfold fileLinkTarget
      rw [List.filterMap_cons]
      cases hl : l.href with
      | internal q fr =>
        by_cases hqp : (q == p) = true
        · simp only [hqp, if_true, List.countP_cons, hfold, ih]
          simp [hh, hqp]
        · have hqpf : (q == p) = false := by simpa using hqp
          simp only [hqpf, Bool.false_eq_true, if_false, hfold, ih]
          simp [hh, hqpf]
      | reference r =>
        simp only [hfold, ih]
        simp
      | external =>
        simp only [hfold, ih]
        simp
    · rw [if_neg hh]
      rw [ih]
      have hh' : (l.source.text.startsWith "#") = true := by
        simpa using hh
      simp [hh']

end Diag

namespace Diag

theorem mem_validateFileLinks_fileNotExist
    (env : Env) (options : DiagnosticOptions) (links : List MdLink)
    (p : Uri) (link : MdLink) (frag : String) (sev : DiagnosticSeverity)
    (hsev : toSeverity options.validateFileLinks = some sev)
    (hmem : link ∈ links) (hhref : link.href = .internal p frag)
    (hhash : link.source.text.startsWith "#" = false) :
    (({ range := link.source.hrefRange, message := .fileDoesNotExist p,
        severity := sev, link := some link.source.pathText } : Diagnostic)
        ∈ validateFileLinks env options links false) ↔
      (env.findMdDocForPath p = none ∧ env.pathExists p = false ∧
        isIgnoredLink env options link.source.pathText = false) := by
  rw [validateFileLinks_eq env options links false sev hsev]
  constructor
  · intro hd
    by_cases hg : (((fileLinkMapBuild (links.filter
        (fun link => !(link.source.text.startsWith "#")))).length == 0) = true)
    · rw [if_pos hg] at hd
      exact absurd hd (List.not_mem_nil _)
    · rw [if_neg hg] at hd
      rcases List.mem_flatten.mp hd with ⟨out, hout, hdo⟩
      rcases List.mem_map.mp hout with ⟨group, hgroup, hgf⟩
      rw [← hgf] at hdo
      rcases fileLinkGroupDiagnostics_shape env options sev
          (mdFragmentErrorSeverity options) false group _ hdo with
        ⟨e, he, hig, hde, hfind, hpex⟩ | ⟨fr, hmsg⟩
      · have h1 : p = group.1 := by
          have hmm := congrArg Diagnostic.message hde
          simpa using hmm
        have h2 : link.source.pathText = e.source.pathText := by
          have hll := congrArg Diagnostic.link hde
          simpa using hll
        refine ⟨by rw [h1]; exact hfind, by rw [h1]; exact hpex, ?_⟩
        rw [h2]
        exact hig
      · exfalso
        simp at hmsg
  · rintro ⟨hfind, hpex, hign⟩
    have he : ({ source := link.source, fragment := frag } : FileLinkEntry) ∈
        entriesOf p (fileLinkMapBuild (links.filter
          (fun link => !(link.source.text.startsWith "#")))) := by
      rw [entriesOf_fileLinkMapBuild]
      unfold fileLinkTarget
      apply List.mem_filterMap.mpr
      refine ⟨link, List.mem_filter.mpr ⟨hmem, by simp [hhash]⟩, ?_⟩
      rw [hhref]
      simp
    have hdecomp : ∃ kv, kv ∈ fileLinkMapBuild (links.filter
        (fun link => !(link.source.text.startsWith "#"))) ∧ (kv.1 == p) = true ∧
        ({ source := link.source, fragment := frag } : FileLinkEntry) ∈ kv.2 := by
      unfold entriesOf at he
      rcases List.mem_flatten.mp he with ⟨es, hes, hein⟩
      rcases List.mem_map.mp hes with ⟨kv, hkv, hkv2⟩
      rcases List.mem_filter.mp hkv with ⟨hkvm, hkvp⟩
      rw [← hkv2] at hein
      exact ⟨kv, hkvm, hkvp, hein⟩
    rcases hdecomp with ⟨kv, hkv, hkp, hekv⟩
    have hkp' : kv.1 = p := by simpa using hkp
    have hg : ¬(((fileLinkMapBuild (links.filter
        (fun link => !(link.source.text.startsWith "#")))).length == 0) = true) := by
      intro hgz
      have hnil : fileLinkMapBuild (links.filter
          (fun link => !(link.source.text.startsWith "#"))) = [] := by
        rw [← List.length_eq_zero]
        simpa using hgz
      rw [hnil] at hkv
      exact absurd hkv (List.not_mem_nil _)
    rw [if_neg hg]
    apply List.mem_flatten.mpr
    refine ⟨fileLinkGroupDiagnostics env options sev
        (mdFragmentErrorSeverity options) false kv,
      List.mem_map.mpr ⟨kv, hkv, rfl⟩, ?_⟩
    rw [fileLinkGroupDiagnostics_notExists env options sev
      (mdFragmentErrorSeverity options) kv p hkp' hfind hpex]
    apply List.mem_filterMap.mpr
    refine ⟨{ source := link.source, fragment := frag }, hekv, ?_⟩
    simp [hign]

theorem countP_validateFileLinks_fileNotExist
    (env : Env) (options : DiagnosticOptions) (links : List MdLink)
    (p : Uri) (sev : DiagnosticSeverity)
    (hsev : toSeverity options.validateFileLinks = some sev)
    (hfind : env.findMdDocForPath p = none) (hpex : env.pathExists p = false) :
    (validateFileLinks env options links false).countP
        (fun dg => dg.message == DiagMessage.fileDoesNotExist p) =
      links.countP (fun l =>
        (match l.href with
         | .internal q _ => q == p
         | _ => false) &&
        (!(l.source.text.startsWith "#") &&
         !(isIgnoredLink env options l.source.pathText))) := by
  rw [validateFileLinks_eq env options links false sev hsev,
    ← countP_fileLinkTarget_eq env options p links,
    ← entriesOf_fileLinkMapBuild p (links.filter
      (fun l => !(l.source.text.startsWith "#")))]
  by_cases hg : (((fileLinkMapBuild (links.filter
      (fun link => !(link.source.text.startsWith "#")))).length == 0) = true)
  · rw [if_pos hg]
    have hnil : fileLinkMapBuild (links.filter
        (fun link => !(link.source.text.startsWith "#"))) = [] := by
      rw [← List.length_eq_zero]
      simpa using hg
    rw [hnil, entriesOf_nil]
    rfl
  · rw [if_neg hg]
    exact countP_flatten_groups env options sev (mdFragmentErrorSeverity options)
      p hfind hpex _

end Diag

theorem sampleLink_text_not_hash :
    Diag.sampleLink.source.text.startsWith "#" = false := by
  show ("other.md".startsWith "#") = false
  show ("other.md".toSubstring.take "#".length == "#".toSubstring) = false
  rw [show ("other.md".toSubstring.take "#".length) = ⟨"other.md", ⟨0⟩, ⟨1⟩⟩ from rfl]
  show (Substring.beq ⟨"other.md", ⟨0⟩, ⟨1⟩⟩ "#".toSubstring) = false
  rw [Substring.beq]
  simp only []
  unfold String.substrEq
  unfold String.substrEq.loop
  simp
  intro h1 h2 h3
  refine ⟨by decide, ?_⟩
  intro hch
  exact absurd hch (by decide)

/-- C5: a 'File does not exist at path' diagnostic is emitted for an
internal link whose source text does not start with '#' exactly when no
markdown document matches the link path, the workspace path-existence check
returns false, and the link's path text matches no ignore glob; in that
case one diagnostic is produced per non-ignored link to that path, at the
link's href range with the file-link severity. -/
theorem fileDoesNotExistDiagnostic
    (env : Diag.Env) (options : Diag.DiagnosticOptions) (links : List Diag.MdLink)
    (p : Diag.Uri) (link : Diag.MdLink) (frag : String)
    (sev : Diag.DiagnosticSeverity)
    (hsev : Diag.toSeverity options.validateFileLinks = some sev)
    (hmem : link ∈ links) (hhref : link.href = .internal p frag)
    (hhash : link.source.text.startsWith "#" = false) :
    ((({ range := link.source.hrefRange, message := .fileDoesNotExist p,
         severity := sev, link := some link.source.pathText } : Diag.Diagnostic)
        ∈ Diag.validateFileLinks env options links false) ↔
      (env.findMdDocForPath p = none ∧ env.pathExists p = false ∧
        Diag.isIgnoredLink env options link.source.pathText = false)) ∧
    (env.findMdDocForPath p = none → env.pathExists p = false →
      (Diag.validateFileLinks env options links false).countP
          (fun dg => dg.message == Diag.DiagMessage.fileDoesNotExist p) =
        links.countP (fun l =>
          (match l.href with
           | .internal q _ => q == p
           | _ => false) &&
          (!(l.source.text.startsWith "#") &&
           !(Diag.isIgnoredLink env options l.source.pathText)))) :=
  ⟨Diag.mem_validateFileLinks_fileNotExist env options links p link frag sev
      hsev hmem hhref hhash,
   fun hf hp =>
     Diag.countP_validateFileLinks_fileNotExist env options links p sev hsev hf hp⟩

/-- Witness for C5 at a concrete environment, options and link. -/
theorem fileDoesNotExistDiagnostic_witness :
    Diag.toSeverity Diag.sampleOptions.validateFileLinks = some .Warning ∧
    Diag.sampleLink ∈ [Diag.sampleLink] ∧
    Diag.sampleLink.href = .internal "other.md" "" ∧
    Diag.sampleLink.source.text.startsWith "#" = false ∧
    (((({ range := Diag.sampleLink.source.hrefRange,
          message := .fileDoesNotExist "other.md",
          severity := .Warning,
          link := some Diag.sampleLink.source.pathText } : Diag.Diagnostic)
        ∈ Diag.validateFileLinks Diag.sampleEnv Diag.sampleOptions
            [Diag.sampleLink] false) ↔
      (Diag.sampleEnv.findMdDocForPath "other.md" = none ∧
        Diag.sampleEnv.pathExists "other.md" = false ∧
        Diag.isIgnoredLink Diag.sampleEnv Diag.sampleOptions
          Diag.sampleLink.source.pathText = false)) ∧
     (Diag.sampleEnv.findMdDocForPath "other.md" = none →
      Diag.sampleEnv.pathExists "other.md" = false →
      (Diag.validateFileLinks Diag.sampleEnv Diag.sampleOptions
          [Diag.sampleLink] false).countP
          (fun dg => dg.message == Diag.DiagMessage.fileDoesNotExist "other.md") =
        ([Diag.sampleLink]).countP (fun l =>
          (match l.href with
           | .internal q _ => q == "other.md"
           | _ => false) &&
          (!(l.source.text.startsWith "#") &&
           !(Diag.isIgnoredLink Diag.sampleEnv Diag.sampleOptions
              l.source.pathText))))) :=
  ⟨rfl, List.mem_cons_self _ _, rfl, sampleLink_text_not_hash,
   fileDoesNotExistDiagnostic Diag.sampleEnv Diag.sampleOptions [Diag.sampleLink]
     "other.md" Diag.sampleLink "" .Warning rfl (List.mem_cons_self _ _) rfl
     sampleLink_text_not_hash⟩

/-- C3: `getDiagnostics` returns the flattened concatenation of the
file-link, reference-link and own-document fragment-link validation passes;
each pass is empty when its severity option is ignore or undefined;
`toSeverity` maps error to Error, warning to Warning, and ignore/undefined
to undefined; and the diagnostics are empty when cancellation was requested
after link computation or the feature is disabled. -/
theorem diagnosticsConcatenationAndGating
    (env : Diag.Env) (doc : Diag.Doc) (options : Diag.DiagnosticOptions)
    (token : Bool) :
    Diag.getDiagnostics env doc options token =
      (env.getAllLinks doc,
        if token || !options.enabled then []
        else
          Diag.validateFileLinks env options (env.getAllLinks doc) token ++
          Diag.validateReferenceLinks env options (env.getAllLinks doc) ++
          Diag.validateFragmentLinks env doc options (env.getAllLinks doc) token) ∧
    (Diag.getDiagnostics env doc options true).2 = [] ∧
    (Diag.getDiagnostics env doc { options with enabled := false } token).2 = [] ∧
    Diag.validateFileLinks env { options with validateFileLinks := none }
      (env.getAllLinks doc) token = [] ∧
    Diag.validateFileLinks env { options with validateFileLinks := some .ignore }
      (env.getAllLinks doc) token = [] ∧
    Diag.validateReferenceLinks env { options with validateReferences := none }
      (env.getAllLinks doc) = [] ∧
    Diag.validateReferenceLinks env { options with validateReferences := some .ignore }
      (env.getAllLinks doc) = [] ∧
    Diag.validateFragmentLinks env doc { options with validateFragmentLinks := none }
      (env.getAllLinks doc) token = [] ∧
    Diag.validateFragmentLinks env doc
      { options with validateFragmentLinks := some .ignore }
      (env.getAllLinks doc) token = [] ∧
    Diag.toSeverity (some .error) = some .Error ∧
    Diag.toSeverity (some .warning) = some .Warning ∧
    Diag.toSeverity (some .ignore) = none ∧
    Diag.toSeverity none = none := by
  refine ⟨?_, rfl, ?_, rfl, rfl, rfl, rfl, rfl, rfl, rfl, rfl, rfl, rfl⟩
  · by_cases h : (token || !options.enabled) = true
    · simp [Diag.getDiagnostics, h]
    · simp [Diag.getDiagnostics, h]
  · simp [Diag.getDiagnostics]
